import Mathlib

/-!
Verification development for the FPL gameweek-planning engine
(`app/tools/analysis.py` and the planner guardrail in `app/api/routes.py`).

Modelling conventions (shallow embedding):
* Python floats are modelled by `ℚ`.  Upstream decimal-string fields that are
  parsed with `float(...)` under a `try/except` defaulting to `0.0` are
  modelled as `Option ℚ` (`none` = missing or unparsable).
* The logistic `_sigmoid` uses `math.exp`, which is not rational-valued; all
  definitions are therefore parameterised by an arbitrary `sig : ℚ → ℚ` in
  place of `_sigmoid`.  Theorems that depend on properties of the logistic
  assume only facts the source function provably has (non-negativity).
  Concrete evaluations use `sigmoid0`, a function satisfying those same
  facts; the concrete inputs below are chosen so that every comparison made
  by the code has the same outcome for the true logistic (all EPΔ values are
  zero, or the compared players share the same minutes and opponent factors).
* Python dicts are modelled as association lists (`dictInsert` / `dictGet`,
  last write wins, first-insertion order preserved) or, where only lookups
  occur, directly as functions.
* Python's stable `list.sort(key=...)` is modelled with `List.insertionSort`,
  which is likewise stable for the reflexive key relations used here.
* Purely presentational outputs (reason sentences, summary paragraphs,
  `factors`/fixture-context sub-dicts, web names) are omitted from the `Plan`
  and `PlanAction` records: no claim concerns them and they feed back into no
  computation.
-/

/-- Position code strings used by the source (`"GK"`, `"DEF"`, `"MID"`, `"FWD"`). -/
def posGK : String := "GK"

def posDEF : String := "DEF"

def posMID : String := "MID"

def posFWD : String := "FWD"

/-- Source `_nz`: `float(x) if x is not None else default` with default `0.0`. -/
def nzQ (x : Option ℚ) : ℚ := x.getD 0

/-- The clamp of `_norm`: `0` below `0`, `1` above `1`. -/
def clamp01 (v : ℚ) : ℚ := if v < 0 then 0 else if v > 1 then 1 else v

/-- Source `_norm`: linear normalisation of `x` onto `[0,1]` given `[lo,hi]`,
swapping the bounds when `lo > hi` and clamping; `0` when `hi == lo`. -/
def norm01 (x lo hi : ℚ) : ℚ :=
  if hi = lo then 0
  else
    let p := if lo ≤ hi then (lo, hi) else (hi, lo)
    clamp01 ((x - p.1) / (p.2 - p.1))

/-- Source `position_code`: `{1: "GK", 2: "DEF", 3: "MID", 4: "FWD"}.get(et, "MID")`. -/
def position_code (element_type : ℤ) : String :=
  if element_type = 1 then posGK
  else if element_type = 2 then posDEF
  else if element_type = 3 then posMID
  else if element_type = 4 then posFWD
  else posMID

/-- Source `MIN_BY_POS` (minimum starters per position). -/
def MIN_BY_POS (p : String) : ℕ :=
  if p = posGK then 1 else if p = posDEF then 3
  else if p = posMID then 2 else if p = posFWD then 1 else 0

/-- Source `MAX_BY_POS` (maximum starters per position). -/
def MAX_BY_POS (p : String) : ℕ :=
  if p = posGK then 1 else if p = posDEF then 5
  else if p = posMID then 5 else if p = posFWD then 3 else 0

/-- A bootstrap player record (`elements` entry).  Numeric-string fields are
`Option ℚ` (`none` = missing or unparsable); integer fields that the source
reads with `.get(k, 0) or 0` are `Option ℤ` (`none` = missing or `None`;
a stored `0` is preserved, matching `0 or 0 == 0`). -/
structure Element where
  id : ℤ
  element_type : Option ℤ
  team : Option ℤ
  form : Option ℚ
  ict_index : Option ℚ
  minutes : Option ℚ
  selected_by_percent : Option ℚ
  now_cost : Option ℤ
deriving Repr, DecidableEq, Inhabited

/-- A bootstrap team record; `strength` is `none` when missing or `None`
(the source then defaults to 3, and also maps a stored `0` to 3 via `or 3`). -/
structure Team where
  id : ℤ
  strength : Option ℤ
deriving Repr, DecidableEq, Inhabited

/-- A manager pick. -/
structure Pick where
  element : ℤ
  multiplier : ℤ
  is_captain : Bool
  is_vice_captain : Bool
deriving Repr, DecidableEq, Inhabited

/-- A fixture row of the target gameweek (`team_h` / `team_a` read with
`.get(k, 0) or 0`). -/
structure Fixture where
  team_h : Option ℤ
  team_a : Option ℤ
deriving Repr, DecidableEq, Inhabited

/-- `dictGet`: Python `d.get(k)` over an association list (first matching key). -/
def dictGet {α : Type} (l : List (ℤ × α)) (k : ℤ) : Option α :=
  (l.find? (fun p => p.1 == k)).map (·.2)

/-- `dictInsert`: Python `d[k] = v` over an association list: overwrite in
place when the key exists (keeping first-insertion order), append otherwise. -/
def dictInsert {α : Type} (l : List (ℤ × α)) (k : ℤ) (v : α) : List (ℤ × α) :=
  if l.any (fun p => p.1 == k) then
    l.map (fun p => if p.1 == k then (k, v) else p)
  else l ++ [(k, v)]

/-- Source `{int(e.get("id")): e for e in elements}` followed by `.get(i)`:
with duplicate ids the later record wins, hence the last match. -/
def elem_by_id (elements : List Element) (i : ℤ) : Option Element :=
  (elements.filter (fun e => e.id == i)).getLast?

/-- Team index lookup (`{int(t.get("id")): t for t in teams}`, later wins). -/
def team_idx (teams : List Team) (i : ℤ) : Option Team :=
  (teams.filter (fun t => t.id == i)).getLast?

/-- Stable descending sort by a rational key, modelling Python's stable
`list.sort(key=..., reverse=True)`. -/
def sortByKeyDesc {α : Type} (f : α → ℚ) (l : List α) : List α :=
  @List.insertionSort α (fun a b => f b ≤ f a)
    (fun a b => inferInstanceAs (Decidable (f b ≤ f a))) l

/-- Stable ascending sort by a rational key, modelling Python's stable
`list.sort(key=...)`. -/
def sortByKeyAsc {α : Type} (f : α → ℚ) (l : List α) : List α :=
  @List.insertionSort α (fun a b => f a ≤ f b)
    (fun a b => inferInstanceAs (Decidable (f a ≤ f b))) l

theorem sortByKeyDesc_perm {α : Type} (f : α → ℚ) (l : List α) :
    (sortByKeyDesc f l).Perm l :=
  List.perm_insertionSort _ l

theorem sortByKeyAsc_perm {α : Type} (f : α → ℚ) (l : List α) :
    (sortByKeyAsc f l).Perm l :=
  List.perm_insertionSort _ l

theorem sortByKeyDesc_sorted {α : Type} (f : α → ℚ) (l : List α) :
    (sortByKeyDesc f l).Pairwise (fun a b => f b ≤ f a) := by
  haveI : IsTotal α (fun a b => f b ≤ f a) :=
    ⟨fun a b => (le_total (f b) (f a)).imp id id⟩
  haveI : IsTrans α (fun a b => f b ≤ f a) :=
    ⟨fun _ _ _ h1 h2 => le_trans h2 h1⟩
  exact List.sorted_insertionSort _ l

theorem sortByKeyAsc_sorted {α : Type} (f : α → ℚ) (l : List α) :
    (sortByKeyAsc f l).Pairwise (fun a b => f a ≤ f b) := by
  haveI : IsTotal α (fun a b => f a ≤ f b) :=
    ⟨fun a b => le_total (f a) (f b)⟩
  haveI : IsTrans α (fun a b => f a ≤ f b) :=
    ⟨fun _ _ _ h1 h2 => le_trans h1 h2⟩
  exact List.sorted_insertionSort _ l

theorem mem_sortByKeyDesc {α : Type} (f : α → ℚ) (l : List α) (a : α) :
    a ∈ sortByKeyDesc f l ↔ a ∈ l :=
  (sortByKeyDesc_perm f l).mem_iff

/-- Python `max(l, key=f)` on a non-empty list: the first maximum wins
(replacement only on a strictly greater key). -/
def pyMaxBy {α : Type} [Inhabited α] (f : α → ℚ) (l : List α) : α :=
  match l with
  | [] => default
  | x :: xs => xs.foldl (fun acc y => if f acc < f y then y else acc) x

/-- Python `round(x, 2)` on the rationals (round half up at the second
decimal; the float version rounds half to even, a difference none of the
claims exercises). -/
def round2 (q : ℚ) : ℚ := ((Rat.floor (q * 100 + 1/2) : ℤ) : ℚ) / 100

/-- Source `expected_points_delta`, with the logistic `_sigmoid` abstracted
to the parameter `sig` (see the header note). -/
def expected_points_delta (sig : ℚ → ℚ) (player : Element)
    (opponent_strength : ℤ) (recent_minutes : ℚ) : ℚ :=
  let form := nzQ player.form
  let ict := nzQ player.ict_index
  let form_n := norm01 form 0 10
  let ict_n := norm01 ict 0 20
  let mix := 0.6 * form_n + 0.4 * ict_n
  let m := sig ((recent_minutes - 120) / 60)
  let d := norm01 (opponent_strength : ℚ) 5 1
  6 * mix * m * d

/-- A concrete stand-in for `_sigmoid` used only to evaluate the model at
explicit inputs.  It shares with the source logistic every property the
proofs use: values in `[0,1]`, monotone, strictly positive above the `-50`
clamp, and saturation at the clamps. -/
def sigmoid0 (x : ℚ) : ℚ := if x ≤ -50 then 0 else if 50 ≤ x then 1 else 1/2

/-- A fixture context row built by the planner (`was_home` / `opponent_team`
/ `opponent_strength` are always populated there). -/
structure FixtureCtx where
  was_home : Bool
  opponent_team : ℤ
  opponent_strength : ℤ
deriving Repr, DecidableEq, Inhabited

/-- Source `aggregate_epdelta_for_fixtures` (its `teams_idx` argument is
unused in the source body and dropped here): sum EPΔ over the team's
gameweek fixtures with the capped-minutes proxy, then a 10% bonus when
there are 2+ fixtures. -/
def aggregate_epdelta_for_fixtures (sig : ℚ → ℚ) (player : Element)
    (fixtures_rows : List FixtureCtx) : ℚ :=
  let pid_minutes := min (nzQ player.minutes) 180
  let total := fixtures_rows.foldl
    (fun acc fx => acc + expected_points_delta sig player fx.opponent_strength pid_minutes) 0
  if 1 < fixtures_rows.length then total * 1.1 else total

/-- Source `positions.get(pid, "MID")`, the bucket key used by
`choose_starting_xi` (and again for `positions[pid]` in its fill loop, where
the source would raise `KeyError` for an absent pid; that path is
unreachable whenever the EPΔ keys are a subset of the positions keys, as in
every use below). -/
def groupPos (positions : ℤ → Option String) (pid : ℤ) : String :=
  (positions pid).getD posMID

/-- One position bucket of `choose_starting_xi`: the `(pid, ep)` pairs whose
bucket key is `c`, in insertion order, then stably sorted by descending EPΔ. -/
def bucketOf (ep_by_player : List (ℤ × ℚ)) (positions : ℤ → Option String)
    (c : String) : List (ℤ × ℚ) :=
  sortByKeyDesc (fun p => p.2)
    (ep_by_player.filter (fun p => groupPos positions p.1 == c))

/-- Phase C of `choose_starting_xi`: walk the remaining candidates in
descending-EPΔ order, stopping at 11 starters and skipping any candidate
whose position has reached its maximum. -/
def fill_step (positions : ℤ → Option String) :
    List ℤ → (String → ℕ) → List (ℤ × ℚ) → List ℤ × (String → ℕ)
  | sel, cnt, [] => (sel, cnt)
  | sel, cnt, c :: rest =>
    if 11 ≤ sel.length then (sel, cnt)
    else
      let pos := groupPos positions c.1
      if cnt pos < MAX_BY_POS pos then
        fill_step positions (sel ++ [c.1])
          (fun q => if q = pos then cnt q + 1 else cnt q) rest
      else fill_step positions sel cnt rest

/-- Phase B of `choose_starting_xi` for one outfield position: extend the
selection with the top of the position's pool up to its minimum and bump
the counts by the number actually appended. -/
def stageB (sel : List ℤ) (cnt : String → ℕ) (bucket : List (ℤ × ℚ))
    (pos : String) : List ℤ × (String → ℕ) :=
  (sel ++ ((bucket.filter (fun p => !sel.contains p.1)).map (·.1)).take
      (MIN_BY_POS pos),
   fun c => if c = pos then
      cnt c + min ((bucket.filter (fun p => !sel.contains p.1)).map (·.1)).length
        (MIN_BY_POS pos)
    else cnt c)

/-- Phase A of `choose_starting_xi`: the top goalkeeper (if any) and the
initial counts. -/
def xiStage1 (ep_by_player : List (ℤ × ℚ)) (positions : ℤ → Option String) :
    List ℤ × (String → ℕ) :=
  (match bucketOf ep_by_player positions posGK with
   | [] => []
   | g :: _ => [g.1],
   fun c => if c = posGK then
      (match bucketOf ep_by_player positions posGK with
       | [] => ([] : List ℤ)
       | g :: _ => [g.1]).length
    else 0)

/-- Phases A+B of `choose_starting_xi`: goalkeeper, then the three outfield
minima in order. -/
def xiStage4 (ep_by_player : List (ℤ × ℚ)) (positions : ℤ → Option String) :
    List ℤ × (String → ℕ) :=
  stageB
    (stageB
      (stageB (xiStage1 ep_by_player positions).1
        (xiStage1 ep_by_player positions).2
        (bucketOf ep_by_player positions posDEF) posDEF).1
      (stageB (xiStage1 ep_by_player positions).1
        (xiStage1 ep_by_player positions).2
        (bucketOf ep_by_player positions posDEF) posDEF).2
      (bucketOf ep_by_player positions posMID) posMID).1
    (stageB
      (stageB (xiStage1 ep_by_player positions).1
        (xiStage1 ep_by_player positions).2
        (bucketOf ep_by_player positions posDEF) posDEF).1
      (stageB (xiStage1 ep_by_player positions).1
        (xiStage1 ep_by_player positions).2
        (bucketOf ep_by_player positions posDEF) posDEF).2
      (bucketOf ep_by_player positions posMID) posMID).2
    (bucketOf ep_by_player positions posFWD) posFWD

/-- The phase-C candidates: the remaining outfield pairs, sorted by
descending EPΔ. -/
def xiCandidates (ep_by_player : List (ℤ × ℚ)) (positions : ℤ → Option String) :
    List (ℤ × ℚ) :=
  sortByKeyDesc (fun p => p.2)
    ((bucketOf ep_by_player positions posDEF ++
      bucketOf ep_by_player positions posMID ++
      bucketOf ep_by_player positions posFWD).filter
        (fun p => !(xiStage4 ep_by_player positions).1.contains p.1))

/-- Source `choose_starting_xi`: exactly one goalkeeper, outfield minima,
fill to 11 under the maxima, bench ordered as three outfielders by
ascending EPΔ then a goalkeeper. -/
def choose_starting_xi (ep_by_player : List (ℤ × ℚ))
    (positions : ℤ → Option String) : List ℤ × List ℤ :=
  let sel := (fill_step positions (xiStage4 ep_by_player positions).1
    (xiStage4 ep_by_player positions).2 (xiCandidates ep_by_player positions)).1
  let all_ids := ep_by_player.map (·.1)
  let bench := all_ids.filter (fun pid => !sel.contains pid)
  let outfield_bench := bench.filter (fun pid => positions pid != some posGK)
  let gk_bench := bench.filter (fun pid => positions pid == some posGK)
  let epGet : ℤ → ℚ := fun pid => (dictGet ep_by_player pid).getD 0
  let ob := sortByKeyAsc epGet outfield_bench
  (sel, ob.take 3 ++ gk_bench.take 1)

/-- The candidate score of `recommend_captain_from_ids`: ownership-adjusted
EPΔ, depending on the mode. -/
def capScore (mode : String) (own base : ℚ) : ℚ :=
  if mode = "safe" then base * (1 + min own 80 / 100)
  else base * (1 + max 0 (20 - min own 20) / 25)

/-- Eligible captain candidates: starters that are not goalkeepers. -/
def capCandidates (starting_ids : List ℤ) (positions : ℤ → Option String) :
    List ℤ :=
  starting_ids.filter (fun pid => positions pid != some posGK)

/-- The `(pid, score, base)` triples of `recommend_captain_from_ids`. -/
def capScoredList (starting_ids : List ℤ) (per_player_ep ownership_idx : ℤ → ℚ)
    (positions : ℤ → Option String) (mode : String) : List (ℤ × ℚ × ℚ) :=
  (capCandidates starting_ids positions).map
    (fun pid => (pid, capScore mode (ownership_idx pid) (per_player_ep pid),
      per_player_ep pid))

/-- The scored triples sorted by descending score (the source sorts in
place, so both the top pick and the fallback scan use this order). -/
def capSorted (starting_ids : List ℤ) (per_player_ep ownership_idx : ℤ → ℚ)
    (positions : ℤ → Option String) (mode : String) : List (ℤ × ℚ × ℚ) :=
  sortByKeyDesc (fun t => t.2.1)
    (capScoredList starting_ids per_player_ep ownership_idx positions mode)

/-- Source `recommend_captain_from_ids`: highest ownership-adjusted score,
overridden to the highest raw EPΔ when the top scorer's raw EPΔ is below
0.8; vice is the next-highest-scoring other candidate; `(0, 0)` when no
candidates. -/
def recommend_captain_from_ids (starting_ids : List ℤ)
    (per_player_ep ownership_idx : ℤ → ℚ) (positions : ℤ → Option String)
    (mode : String) : ℤ × ℤ :=
  match capSorted starting_ids per_player_ep ownership_idx positions mode with
  | [] => (0, 0)
  | top :: rest =>
    let ss := top :: rest
    let top_pid := if top.2.2 < 0.8 then (pyMaxBy (fun t => t.2.2) ss).1 else top.1
    let vice_pid := (((ss.find? (fun t => t.1 != top_pid)).map (·.1)).getD 0)
    (top_pid, vice_pid)

/-- Chip gains of `evaluate_chips`. -/
structure ChipEval where
  bench_boost_gain : ℚ
  triple_captain_gain : ℚ
deriving Repr, DecidableEq, Inhabited

/-- Source `evaluate_chips`: bench-boost gain is the summed bench EPΔ,
triple-captain gain is the captain's own EPΔ. -/
def evaluate_chips (per_player_ep : ℤ → ℚ) (captain_id : ℤ)
    (bench_ids : List ℤ) : ChipEval :=
  { bench_boost_gain := (bench_ids.map per_player_ep).sum
    triple_captain_gain := per_player_ep captain_id }

/-- The arguments of `plan_gameweek`, bundled (the `sig` field stands for
the source's `_sigmoid`). -/
structure PlanInput where
  sig : ℚ → ℚ
  picks : List Pick
  elements : List Element
  teams : List Team
  fixtures_gw : List Fixture
  gw : ℤ
  ownership_idx : ℤ → ℚ
  mode : String

/-- The planner's per-pick positions map: `position_code` of the element's
`element_type` (`.get("element_type", 0) or 0`), keyed by the picked ids. -/
def positionsOf (picks : List Pick) (elements : List Element) :
    ℤ → Option String := fun pid =>
  if picks.any (fun p => p.element == pid) then
    some (position_code (((elem_by_id elements pid).bind (·.element_type)).getD 0))
  else none

/-- Opponent strength lookup: `int(team_idx.get(t, {}).get("strength", 3) or 3)`. -/
def team_strength (teams : List Team) (tid : ℤ) : ℤ :=
  match (team_idx teams tid).bind (·.strength) with
  | none => 3
  | some s => if s = 0 then 3 else s

/-- The planner's `fixtures_by_team` rows for one team, in fixture order
(home context first when a team is both sides of one fixture). -/
def fixtures_by_team (teams : List Team) (fixtures_gw : List Fixture)
    (t : ℤ) : List FixtureCtx :=
  fixtures_gw.foldr (fun fx acc =>
    let th := fx.team_h.getD 0
    let ta := fx.team_a.getD 0
    (if th == t then [⟨true, ta, team_strength teams ta⟩] else []) ++
    (if ta == t then [⟨false, th, team_strength teams th⟩] else []) ++ acc) []

/-- An absent element record (`elem_by_id.get(eid, {})`). -/
def emptyElement : Element := ⟨0, none, none, none, none, none, none, none⟩

/-- The planner's `ep_by_player` dict: per pick, the aggregated EPΔ over the
player's team fixtures, rounded to two decimals. -/
def ep_map (inp : PlanInput) : List (ℤ × ℚ) :=
  inp.picks.foldl (fun acc p =>
    let eid := p.element
    let e := (elem_by_id inp.elements eid).getD emptyElement
    let team_id := e.team.getD 0
    let fx_rows := fixtures_by_team inp.teams inp.fixtures_gw team_id
    dictInsert acc eid (round2 (aggregate_epdelta_for_fixtures inp.sig e fx_rows))) []

/-- `ep_by_player.get(pid, 0.0)` as a function. -/
def planEpGet (inp : PlanInput) : ℤ → ℚ := fun pid =>
  (dictGet (ep_map inp) pid).getD 0

/-- Starting ids straight from the picks (multiplier > 0), before repair. -/
def currentStart0 (picks : List Pick) : List ℤ :=
  (picks.filter (fun p => 0 < p.multiplier)).map (·.element)

/-- Bench ids straight from the picks (multiplier ≤ 0), before repair. -/
def currentBench0 (picks : List Pick) : List ℤ :=
  (picks.filter (fun p => p.multiplier ≤ 0)).map (·.element)

/-- The planner's repair of an illegal current XI: when more than one
goalkeeper starts, keep the highest-EPΔ one, demote the rest to the bench,
and promote the best outfield bench player while fewer than 11 start. -/
def repairCurrent (positions : ℤ → Option String) (epGet : ℤ → ℚ)
    (start bench : List ℤ) : List ℤ × List ℤ :=
  let gks := start.filter (fun pid => positions pid == some posGK)
  if 1 < gks.length then
    let sorted_gks := sortByKeyDesc epGet gks
    let demoted := sorted_gks.tail
    let start1 := demoted.foldl (fun s g => s.erase g) start
    let bench1 := bench ++ demoted
    let outfield := sortByKeyDesc epGet
      (bench1.filter (fun pid => positions pid != some posGK))
    match outfield.find? (fun pid => !start1.contains pid && start1.length < 11) with
    | some pid => (start1 ++ [pid], bench1.erase pid)
    | none => (start1, bench1)
  else (start, bench)

/-- The repaired current start/bench of the plan. -/
def planCurrent (inp : PlanInput) : List ℤ × List ℤ :=
  repairCurrent (positionsOf inp.picks inp.elements) (planEpGet inp)
    (currentStart0 inp.picks) (currentBench0 inp.picks)

/-- The optimal start/bench of the plan. -/
def planOptimal (inp : PlanInput) : List ℤ × List ℤ :=
  choose_starting_xi (ep_map inp) (positionsOf inp.picks inp.elements)

/-- Source `formation_str`: the outfield counts `"D-M-F"`. -/
def formation_str (ids : List ℤ) (positions : ℤ → Option String) : String :=
  let d := ids.countP (fun i => positions i == some posDEF)
  let m := ids.countP (fun i => positions i == some posMID)
  let f := ids.countP (fun i => positions i == some posFWD)
  toString d ++ "-" ++ toString m ++ "-" ++ toString f

/-- The planner's captain/vice pair, chosen among the optimal XI. -/
def planCaptainVice (inp : PlanInput) : ℤ × ℤ :=
  recommend_captain_from_ids (planOptimal inp).1 (planEpGet inp)
    inp.ownership_idx (positionsOf inp.picks inp.elements) inp.mode

/-- The planner's chip evaluation (optimal bench, recommended captain). -/
def planChipEval (inp : PlanInput) : ChipEval :=
  evaluate_chips (planEpGet inp) (planCaptainVice inp).1 (planOptimal inp).2

/-- Candidate swap pairs `(in, out, delta)`: optimal-only × current-only
with EPΔ gain at least 0.20, in nested-loop order. -/
def planPairs0 (inp : PlanInput) : List (ℤ × ℤ × ℚ) :=
  let epGet := planEpGet inp
  let current_start := (planCurrent inp).1
  let optimal_start := (planOptimal inp).1
  let start_in := optimal_start.filter (fun pid => !current_start.contains pid)
  let bench_out := current_start.filter (fun pid => !optimal_start.contains pid)
  (start_in.map (fun i => bench_out.filterMap (fun o =>
    let delta := epGet i - epGet o
    if 0.20 ≤ delta then some (i, o, delta) else none))).flatten

/-- The candidate pairs sorted by descending gain. -/
def planPairs (inp : PlanInput) : List (ℤ × ℤ × ℚ) :=
  sortByKeyDesc (fun t => t.2.2) (planPairs0 inp)

/-- Source `is_legal_start`: 11 starters, exactly one goalkeeper, outfield
minima and maxima. -/
def is_legal_start (positions : ℤ → Option String) (starters : List ℤ) : Bool :=
  if starters.length ≠ 11 then false
  else
    let g := starters.countP (fun pid => positions pid == some posGK)
    let d := starters.countP (fun pid => positions pid == some posDEF)
    let m := starters.countP (fun pid => positions pid == some posMID)
    let f := starters.countP (fun pid => positions pid == some posFWD)
    if g ≠ 1 then false
    else if d < MIN_BY_POS posDEF ∨ m < MIN_BY_POS posMID ∨ f < MIN_BY_POS posFWD then
      false
    else if MAX_BY_POS posDEF < d ∨ MAX_BY_POS posMID < m ∨ MAX_BY_POS posFWD < f then
      false
    else true

/-- State of the greedy legality-preserving swap selection. -/
structure GreedyState where
  chosen : List (ℤ × ℤ × ℚ)
  used_in : List ℤ
  used_out : List ℤ
  trial : List ℤ
deriving Repr, DecidableEq, Inhabited

/-- One step of the greedy selection: skip already-used players, apply the
tentative swap, keep it only if the resulting lineup is legal. -/
def greedyStep (positions : ℤ → Option String) (st : GreedyState)
    (p : ℤ × ℤ × ℚ) : GreedyState :=
  if st.used_in.contains p.1 || st.used_out.contains p.2.1 then st
  else if is_legal_start positions
      (st.trial.filter (fun pid => pid != p.2.1) ++ [p.1]) then
    ⟨st.chosen ++ [p], st.used_in ++ [p.1], st.used_out ++ [p.2.1],
      st.trial.filter (fun pid => pid != p.2.1) ++ [p.1]⟩
  else st

/-- The greedy selection over all sorted candidate pairs. -/
def greedySwaps (positions : ℤ → Option String) (current_start : List ℤ)
    (pairs : List (ℤ × ℤ × ℚ)) : GreedyState :=
  pairs.foldl (greedyStep positions) ⟨[], [], [], current_start⟩

/-- The accepted swap pairs of the plan. -/
def planChosen (inp : PlanInput) : GreedyState :=
  greedySwaps (positionsOf inp.picks inp.elements) (planCurrent inp).1
    (planPairs inp)

/-- A planner action (`PlanAction` since Mathlib reserves `Action`).  Fields that a given action type leaves out of its
dict (and that the output pruning would drop) are `none`; presentational
fields are omitted altogether (see the header note). -/
structure PlanAction where
  typ : String
  action_group : String
  priority : ℤ
  bundle_id : Option String
  in_player : Option ℤ
  out_player : Option ℤ
  ep_in : Option ℚ
  ep_out : Option ℚ
  delta_ep : Option ℚ
  player : Option ℤ
  old_player : Option ℤ
  chip : Option String
  reason_code : Option String
deriving Repr, DecidableEq, Inhabited

/-- String literal used for action types. -/
def tySwap : String := "swap"

def tySetCaptain : String := "set_captain"

def tySetVice : String := "set_vice"

def tyChip : String := "chip"

/-- Reason-code and chip strings emitted by the planner. -/
def rcHigherEp : String := "higher_ep"

def rcHighestCaptain : String := "highest_captain_score"

def rcSecondBest : String := "second_best_captain"

def rcBelowThreshold : String := "below_threshold"

/-- The reason-code string quoted by the specification (with a space); the
source emits `"below_threshold"`. -/
def claimBelowThreshold : String := "below threshold"

def chipBB : String := "BB"

def chipTC : String := "TC"

def chipNONE : String := "NONE"

/-- One swap action (priority `10 + k` for the `k`-th accepted pair, all in
the single `lineup-<gw>-1` bundle). -/
def swapAction (gw : ℤ) (epGet : ℤ → ℚ) (k : ℕ) (p : ℤ × ℤ × ℚ) : PlanAction :=
  { typ := tySwap
    action_group := "lineup"
    priority := 10 + (k : ℤ)
    bundle_id := some ("lineup-" ++ toString gw ++ "-1")
    in_player := some p.1
    out_player := some p.2.1
    ep_in := some (round2 (epGet p.1))
    ep_out := some (round2 (epGet p.2.1))
    delta_ep := some (round2 p.2.2)
    player := none
    old_player := none
    chip := none
    reason_code := some rcHigherEp }

/-- Python truthiness of an optional id (`x if x else None`). -/
def optTruthy (o : Option ℤ) : Option ℤ :=
  match o with
  | some c => if c = 0 then none else some c
  | none => none

/-- The manager's current captain (first pick flagged `is_captain`). -/
def currCap (picks : List Pick) : Option ℤ :=
  (picks.find? (·.is_captain)).map (·.element)

/-- The manager's current vice captain. -/
def currVice (picks : List Pick) : Option ℤ :=
  (picks.find? (·.is_vice_captain)).map (·.element)

/-- The plan's full ordered action list: accepted swaps (priorities 10, 11,
…), then conditional captain (50) and vice (60) actions, then the chip
action (90). -/
def planActions (inp : PlanInput) : List PlanAction :=
  let epGet := planEpGet inp
  let captain := (planCaptainVice inp).1
  let vice := (planCaptainVice inp).2
  let curr_cap := currCap inp.picks
  let curr_vc := currVice inp.picks
  let chip_eval := planChipEval inp
  let swaps := ((planChosen inp).chosen.enum).map
    (fun kp => swapAction inp.gw epGet kp.1 kp.2)
  let cap_actions : List PlanAction :=
    if captain ≠ 0 ∧ curr_cap ≠ some captain then
      [{ typ := tySetCaptain
         action_group := "captaincy"
         priority := 50
         bundle_id := none
         in_player := none
         out_player := none
         ep_in := none
         ep_out := none
         delta_ep := some (round2 (epGet captain -
           (match optTruthy curr_cap with | some c => epGet c | none => 0)))
         player := some captain
         old_player := optTruthy curr_cap
         chip := none
         reason_code := some rcHighestCaptain }]
    else []
  let vice_actions : List PlanAction :=
    if vice ≠ 0 ∧ curr_vc ≠ some vice then
      [{ typ := tySetVice
         action_group := "captaincy"
         priority := 60
         bundle_id := none
         in_player := none
         out_player := none
         ep_in := none
         ep_out := none
         delta_ep := none
         player := some vice
         old_player := optTruthy curr_vc
         chip := none
         reason_code := some rcSecondBest }]
    else []
  let chip_type :=
    if 12 ≤ chip_eval.bench_boost_gain then chipBB
    else if 4 ≤ chip_eval.triple_captain_gain then chipTC
    else chipNONE
  let chip_action : PlanAction :=
    { typ := tyChip
      action_group := "chip"
      priority := 90
      bundle_id := none
      in_player := none
      out_player := none
      ep_in := none
      ep_out := none
      delta_ep := none
      player := none
      old_player := none
      chip := some chip_type
      reason_code := if chip_type = chipNONE then some rcBelowThreshold else none }
  swaps ++ cap_actions ++ vice_actions ++ [chip_action]

/-- The planner's returned record (presentational summary strings omitted). -/
structure Plan where
  formation_current : String
  formation_optimal : String
  current_start : List ℤ
  current_bench : List ℤ
  optimal_start : List ℤ
  optimal_bench : List ℤ
  captain : ℤ
  vice_captain : ℤ
  ep_total_current : ℚ
  ep_total_optimal : ℚ
  ep_gain_lineup : ℚ
  bench_ep_total : ℚ
  chip_eval : ChipEval
  per_player_ep : List (ℤ × ℚ)
  actions : List PlanAction

/-- Source `plan_gameweek`, assembled from the named components above. -/
def plan_gameweek (inp : PlanInput) : Plan :=
  let positions := positionsOf inp.picks inp.elements
  let epGet := planEpGet inp
  { formation_current := formation_str (planCurrent inp).1 positions
    formation_optimal := formation_str (planOptimal inp).1 positions
    current_start := (planCurrent inp).1
    current_bench := (planCurrent inp).2
    optimal_start := (planOptimal inp).1
    optimal_bench := (planOptimal inp).2
    captain := (planCaptainVice inp).1
    vice_captain := (planCaptainVice inp).2
    ep_total_current := ((planCurrent inp).1.map epGet).sum
    ep_total_optimal := ((planOptimal inp).1.map epGet).sum
    ep_gain_lineup := ((planOptimal inp).1.map epGet).sum -
      ((planCurrent inp).1.map epGet).sum
    bench_ep_total := ((planOptimal inp).2.map epGet).sum
    chip_eval := planChipEval inp
    per_player_ep := ep_map inp
    actions := planActions inp }

/-- The swap actions of a plan, in returned order. -/
def swap_actions_of (p : Plan) : List PlanAction :=
  p.actions.filter (fun a => a.typ == tySwap)

/-- Apply a list of swap actions to a starting list, each removing its
`out_player` and adding its `in_player` (list order; the planner emits the
list in ascending priority order). -/
def apply_swap_actions (acts : List PlanAction) (start : List ℤ) : List ℤ :=
  acts.foldl (fun s a =>
    match a.in_player, a.out_player with
    | some i, some o => s.filter (fun pid => pid != o) ++ [i]
    | _, _ => s) start

/-- Source `ownership_index`: id → parsed `selected_by_percent`, with
missing or unparsable values stored as `0.0` (dict built in element order,
later duplicate ids overwriting). -/
def ownership_index (elements : List Element) : List (ℤ × ℚ) :=
  elements.foldl (fun acc e => dictInsert acc e.id (nzQ e.selected_by_percent)) []

/-- A linked pick row consumed by `suggest_transfers` (`player` is `none`
for a missing/empty player record, `fixture_row` is `none` for the empty
dict produced when no player was found). -/
structure FixtureRow where
  was_home : Bool
  opponent_team : Option ℤ
  opponent_strength : Option ℤ
deriving Repr, DecidableEq, Inhabited

structure PickRow where
  element : ℤ
  multiplier : ℤ
  player : Option Element
  fixture_row : Option FixtureRow
deriving Repr, DecidableEq, Inhabited

/-- The meta fields `player_meta` actually feeds back into the computation
(its `form`/`minutes` entries are returned but never read). -/
structure TMeta where
  now_cost : ℤ
  element_type : ℤ
  team : ℤ
deriving Repr, DecidableEq, Inhabited

/-- Source `player_meta` inside `suggest_transfers`. -/
def player_meta (elements : List Element) (eid : ℤ) : TMeta :=
  match elem_by_id elements eid with
  | none => ⟨0, 0, 0⟩
  | some e => ⟨e.now_cost.getD 0, e.element_type.getD 0, e.team.getD 0⟩

/-- Source `int(fx.get("opponent_strength") or 3)`. -/
def effOppStrength (o : Option ℤ) : ℤ :=
  match o with
  | some s => if s = 0 then 3 else s
  | none => 3

/-- Python set semantics for the squad-id set: membership plus per-team
counting (iteration order never matters for either). -/
def squadIds (pick_rows : List PickRow) : List ℤ :=
  (pick_rows.map (·.element)).dedup

/-- Initial team counts over the distinct squad ids. -/
def initTeamCounts (elements : List Element) (pick_rows : List PickRow) :
    ℤ → ℤ := fun tm =>
  ((squadIds pick_rows).countP (fun pid => (player_meta elements pid).team == tm) : ℤ)

/-- The scored starters (multiplier > 0 with a player and a fixture row),
before sorting. -/
def currentScored0 (sig : ℚ → ℚ) (pick_rows : List PickRow) : List (ℤ × ℚ) :=
  pick_rows.filterMap (fun row =>
    if row.multiplier ≤ 0 then none
    else
      match row.player, row.fixture_row with
      | some pl, some fx =>
        some (row.element,
          expected_points_delta sig pl (effOppStrength fx.opponent_strength)
            (min (nzQ pl.minutes) 180))
      | _, _ => none)

/-- The scored starters sorted ascending (the source sorts in place and
both the bottom-3 pick and later lookups read the sorted list). -/
def currentScored (sig : ℚ → ℚ) (pick_rows : List PickRow) : List (ℤ × ℚ) :=
  sortByKeyAsc (fun t => t.2) (currentScored0 sig pick_rows)

/-- Non-squad candidate scores at neutral opponent strength 3, keyed dict
in element order. -/
def candidateScores (sig : ℚ → ℚ) (pick_rows : List PickRow)
    (elements : List Element) : List (ℤ × ℚ) :=
  elements.foldl (fun acc e =>
    if (squadIds pick_rows).contains e.id then acc
    else dictInsert acc e.id
      (expected_points_delta sig e 3 (min (nzQ e.minutes) 180))) []

/-- One returned transfer suggestion (the presentational `reason` string is
omitted). -/
structure Suggestion where
  outId : ℤ
  inId : ℤ
  epdelta_out : ℚ
  epdelta_in : ℚ
deriving Repr, DecidableEq, Inhabited

/-- Running state of the sequential transfer simulation. -/
structure TState where
  squad : List ℤ
  counts : ℤ → ℤ
  bank : ℤ
  suggestions : List Suggestion

/-- The outgoing player's EPΔ looked up in the sorted starter list
(`next((v for pid, v in current_scored if pid == out_id), 0.0)`). -/
def stepOutEpd (scored : List (ℤ × ℚ)) (o : ℤ) : ℚ :=
  ((scored.find? (fun t => t.1 == o)).map (·.2)).getD 0

/-- The legality filter of one sell iteration: same position, post-transfer
team cap, budget against the running bank, and a strict EPΔ upgrade. -/
def stepPred (elements : List Element) (scored : List (ℤ × ℚ))
    (allowance : ℤ) (st : TState) (o : ℤ) : (ℤ × ℚ) → Bool := fun c =>
  position_code (player_meta elements c.1).element_type ==
    position_code (player_meta elements o).element_type &&
  !((player_meta elements c.1).team != (player_meta elements o).team &&
    3 ≤ st.counts (player_meta elements c.1).team) &&
  !(st.bank + allowance <
    (player_meta elements c.1).now_cost - (player_meta elements o).now_cost) &&
  !(c.2 ≤ stepOutEpd scored o)

/-- The `in_meta` left over after the filter loop: the meta of the *last*
entry of `candidate_scores` (see `suggestStep`). -/
def lastCandMeta (elements : List Element) (cand : List (ℤ × ℚ)) : TMeta :=
  match cand.getLast? with
  | some c => player_meta elements c.1
  | none => ⟨0, 0, 0⟩

/-- One sell-candidate iteration of `suggest_transfers`.  Note the faithful
quirk: after choosing the best legal candidate, the source updates the team
counts and the bank from `in_meta`, the Python loop variable left over from
the *last* candidate iterated in the filter loop (the last entry of
`candidate_scores`), not from the chosen candidate. -/
def suggestStep (elements : List Element) (cand : List (ℤ × ℚ))
    (scored : List (ℤ × ℚ)) (allowance : ℤ) (st : TState) (out_id : ℤ) :
    TState :=
  match sortByKeyDesc (fun c => c.2)
      (cand.filter (stepPred elements scored allowance st out_id)) with
  | [] => st
  | best :: _ =>
    { squad := (st.squad.filter (fun x => x != out_id)) ++
        (if (st.squad.filter (fun x => x != out_id)).contains best.1 then []
         else [best.1])
      counts := fun t =>
        if t = (lastCandMeta elements cand).team then
          (if t = (player_meta elements out_id).team then
            max 0 (st.counts t - 1) else st.counts t) + 1
        else
          (if t = (player_meta elements out_id).team then
            max 0 (st.counts t - 1) else st.counts t)
      bank := st.bank - ((lastCandMeta elements cand).now_cost -
        (player_meta elements out_id).now_cost)
      suggestions := st.suggestions ++
        [⟨out_id, best.1, stepOutEpd scored out_id, best.2⟩] }

/-- Source `suggest_transfers` (its `ownership_idx` and `mode` arguments are
unused in the source body and dropped here). -/
def suggest_transfers (sig : ℚ → ℚ) (pick_rows : List PickRow)
    (elements : List Element) (bank : ℤ) (bank_allowance : ℤ) :
    List Suggestion :=
  let scored := currentScored sig pick_rows
  let to_replace := (scored.take 3).map (·.1)
  let cand := candidateScores sig pick_rows elements
  (to_replace.foldl (suggestStep elements cand scored bank_allowance)
    { squad := squadIds pick_rows
      counts := initTeamCounts elements pick_rows
      bank := bank
      suggestions := [] }).suggestions

/-- The guardrail's positions map (`routes.py`): `position_code` of the
element type for any id in the union of current and optimal starters. -/
def guardrail_positions (elements : List Element) (cs os : List ℤ) :
    ℤ → Option String := fun pid =>
  if cs.contains pid || os.contains pid then
    some (position_code (((elem_by_id elements pid).bind (·.element_type)).getD 0))
  else none

/-- Error strings raised by the guardrail (`ValueError` messages). -/
def errCount11 : String := "Starters count must remain 11 after swap"

def errNotOptimal : String := "Swaps do not yield optimal_start"

def errFormation : String := "formation_optimal does not match derived positions"

def errMissingField : String := "Invalid swap action: missing player field"

def emptyStr : String := ""

/-- The guardrail's sort key order on actions:
`(bundle_id or "", priority)` lexicographically. -/
def guardKeyLe (a b : PlanAction) : Prop :=
  a.bundle_id.getD emptyStr < b.bundle_id.getD emptyStr ∨
    (a.bundle_id.getD emptyStr = b.bundle_id.getD emptyStr ∧ a.priority ≤ b.priority)

instance : DecidableRel guardKeyLe := fun a b => by
  unfold guardKeyLe; exact inferInstance

/-- The guardrail's stable sort of the swap actions. -/
def sortSwapsForGuardrail (acts : List PlanAction) : List PlanAction :=
  List.insertionSort guardKeyLe acts

deriving instance DecidableEq for Except

/-- Python set removal over a duplicate-free list. -/
def setRemove (l : List ℤ) (x : ℤ) : List ℤ := l.filter (fun y => y != x)

/-- Python set insertion over a duplicate-free list. -/
def setAdd (l : List ℤ) (x : ℤ) : List ℤ := if l.contains x then l else l ++ [x]

/-- One guardrail swap application: the in-player must come from the bench
set and the out-player from the start set, the start set must stay at 11;
any violation (or missing field, a `KeyError` in the source) is an error.
The Python sets are modelled as duplicate-free lists (every observation the
guardrail makes — membership, size, sorted contents — is order-invariant). -/
def guardStep (st : List ℤ × List ℤ) (a : PlanAction) :
    Except String (List ℤ × List ℤ) :=
  match a.in_player, a.out_player with
  | some inn, some outn =>
    if inn ∉ st.2 ∨ outn ∉ st.1 then
      Except.error ("Invalid swap order: in=" ++ toString inn ++ " out=" ++ toString outn)
    else if (setAdd (setRemove st.1 outn) inn).length ≠ 11 then
      Except.error errCount11
    else Except.ok (setAdd (setRemove st.1 outn) inn, setAdd (setRemove st.2 inn) outn)
  | _, _ => Except.error errMissingField

/-- The planner guardrail of `routes.py` (lines 774–801): replay the swap
actions over the current start/bench sets, then require that the final
start set equals the optimal XI (as sorted lists, Python's
`sorted(start_set) != sorted(optimal_start)`) and that the reported optimal
formation matches the one derived from positions.  Any raised error is
surfaced as the HTTP 500 `Planner validation failed` condition. -/
def plannerGuardrail (elements : List Element)
    (current_start current_bench optimal_start : List ℤ)
    (formation_optimal : String) (acts : List PlanAction) :
    Except String Unit :=
  let positions := guardrail_positions elements current_start optimal_start
  let swaps := sortSwapsForGuardrail (acts.filter (fun a => a.typ == tySwap))
  match swaps.foldlM guardStep (current_start.dedup, current_bench.dedup) with
  | Except.error e => Except.error e
  | Except.ok st =>
    if List.insertionSort (· ≤ ·) st.1 ≠ List.insertionSort (· ≤ ·) optimal_start then
      Except.error errNotOptimal
    else if formation_str optimal_start positions ≠ formation_optimal then
      Except.error errFormation
    else Except.ok ()

/-- A 15-element bootstrap: ids 1–2 goalkeepers, 3–7 defenders, 8–12
midfielders, 13–15 forwards; no statistics (so every EPΔ is 0 whatever
stands in for the logistic). -/
def els15 : List Element :=
  [⟨1, some 1, none, none, none, none, none, none⟩,
   ⟨2, some 1, none, none, none, none, none, none⟩,
   ⟨3, some 2, none, none, none, none, none, none⟩,
   ⟨4, some 2, none, none, none, none, none, none⟩,
   ⟨5, some 2, none, none, none, none, none, none⟩,
   ⟨6, some 2, none, none, none, none, none, none⟩,
   ⟨7, some 2, none, none, none, none, none, none⟩,
   ⟨8, some 3, none, none, none, none, none, none⟩,
   ⟨9, some 3, none, none, none, none, none, none⟩,
   ⟨10, some 3, none, none, none, none, none, none⟩,
   ⟨11, some 3, none, none, none, none, none, none⟩,
   ⟨12, some 3, none, none, none, none, none, none⟩,
   ⟨13, some 4, none, none, none, none, none, none⟩,
   ⟨14, some 4, none, none, none, none, none, none⟩,
   ⟨15, some 4, none, none, none, none, none, none⟩]

/-- A pick with no captaincy flags. -/
def mkPick (e m : ℤ) : Pick := ⟨e, m, false, false⟩

/-- A planner input on a blank gameweek (no fixtures, all EPΔ 0) whose
current XI is legal but differs from the optimal XI chosen by bucket order
(the benched goalkeeper 2 and midfielder 11 head their buckets). -/
def planInput1 : PlanInput :=
  { sig := sigmoid0
    picks := [mkPick 2 0, mkPick 1 1, mkPick 3 1, mkPick 4 1, mkPick 5 1,
      mkPick 6 1, mkPick 7 1, mkPick 8 1, mkPick 9 1, mkPick 10 1,
      mkPick 11 0, mkPick 12 0, mkPick 13 1, mkPick 14 1, mkPick 15 0]
    elements := els15
    teams := []
    fixtures_gw := []
    gw := 5
    ownership_idx := fun _ => 0
    mode := "safe" }

/-- A planner input whose picks start both goalkeepers (11 starters in
total), exercising the repair path. -/
def planInput2 : PlanInput :=
  { sig := sigmoid0
    picks := [mkPick 1 1, mkPick 2 1, mkPick 3 1, mkPick 4 1, mkPick 5 1,
      mkPick 6 1, mkPick 7 1, mkPick 8 1, mkPick 9 1, mkPick 10 1,
      mkPick 13 1, mkPick 11 0, mkPick 12 0, mkPick 14 0, mkPick 15 0]
    elements := els15
    teams := []
    fixtures_gw := []
    gw := 5
    ownership_idx := fun _ => 0
    mode := "safe" }

theorem clamp01_nonneg (v : ℚ) : 0 ≤ clamp01 v := by
  unfold clamp01
  split_ifs <;> linarith

theorem clamp01_mono {v w : ℚ} (h : v ≤ w) : clamp01 v ≤ clamp01 w := by
  unfold clamp01
  split_ifs <;> linarith

theorem norm01_nonneg (x lo hi : ℚ) : 0 ≤ norm01 x lo hi := by
  unfold norm01
  split
  · exact le_refl 0
  · exact clamp01_nonneg _

theorem norm01_mono (lo hi : ℚ) {x y : ℚ} (hxy : x ≤ y) :
    norm01 x lo hi ≤ norm01 y lo hi := by
  unfold norm01
  split
  · exact le_refl 0
  · rename_i hne
    set p := if lo ≤ hi then (lo, hi) else (hi, lo) with hp
    have hlt : p.1 < p.2 := by
      rcases le_or_lt lo hi with h | h
      · have hpe : p = (lo, hi) := by simp [hp, h]
        rw [hpe]
        exact lt_of_le_of_ne h (fun e => hne e.symm)
      · have hpe : p = (hi, lo) := by simp [hp, not_le_of_lt h]
        rw [hpe]
        exact h
    have hden : (0 : ℚ) < p.2 - p.1 := sub_pos.mpr hlt
    exact clamp01_mono ((div_le_div_iff_of_pos_right hden).mpr (by linarith))

theorem expected_points_delta_nonneg (sig : ℚ → ℚ) (h : ∀ x, 0 ≤ sig x)
    (p : Element) (s : ℤ) (m : ℚ) : 0 ≤ expected_points_delta sig p s m := by
  unfold expected_points_delta
  have h1 := norm01_nonneg (nzQ p.form) 0 10
  have h2 := norm01_nonneg (nzQ p.ict_index) 0 20
  have h3 := h ((m - 120) / 60)
  have h4 := norm01_nonneg ((s : ℤ) : ℚ) 5 1
  positivity

/-- Claim C4: `expected_points_delta` is monotonically non-decreasing in the
parsed `form` value and in the parsed `ict_index` value (other inputs
fixed), and non-decreasing in the opponent strength number for fixed
minutes, with the inverted strength mapping sending 5 to 1.0 and 1 to 0.0.
The logistic stand-in `sig` is assumed non-negative, as the source
`_sigmoid` is. -/
theorem C4_epdelta_monotone (sig : ℚ → ℚ) (hsig : ∀ x, 0 ≤ sig x)
    (p : Element) (s s' : ℤ) (mins : ℚ) (f f' i i' : Option ℚ) :
    (nzQ f ≤ nzQ f' →
      expected_points_delta sig { p with form := f } s mins ≤
        expected_points_delta sig { p with form := f' } s mins) ∧
    (nzQ i ≤ nzQ i' →
      expected_points_delta sig { p with ict_index := i } s mins ≤
        expected_points_delta sig { p with ict_index := i' } s mins) ∧
    (s ≤ s' →
      expected_points_delta sig p s mins ≤
        expected_points_delta sig p s' mins) ∧
    norm01 (5 : ℚ) 5 1 = 1 ∧ norm01 (1 : ℚ) 5 1 = 0 := by
  have hm := hsig ((mins - 120) / 60)
  refine ⟨?_, ?_, ?_, ?_, ?_⟩
  · intro hff
    unfold expected_points_delta
    dsimp only
    have hmono : norm01 (nzQ f) 0 10 ≤ norm01 (nzQ f') 0 10 := norm01_mono _ _ hff
    have h2 := norm01_nonneg (nzQ p.ict_index) 0 20
    have h4 := norm01_nonneg ((s : ℤ) : ℚ) 5 1
    exact mul_le_mul_of_nonneg_right
      (mul_le_mul_of_nonneg_right (by linarith) hm) h4
  · intro hii
    unfold expected_points_delta
    dsimp only
    have hmono : norm01 (nzQ i) 0 20 ≤ norm01 (nzQ i') 0 20 := norm01_mono _ _ hii
    have h2 := norm01_nonneg (nzQ p.form) 0 10
    have h4 := norm01_nonneg ((s : ℤ) : ℚ) 5 1
    exact mul_le_mul_of_nonneg_right
      (mul_le_mul_of_nonneg_right (by linarith) hm) h4
  · intro hss
    unfold expected_points_delta
    dsimp only
    have hmono : norm01 ((s : ℤ) : ℚ) 5 1 ≤ norm01 ((s' : ℤ) : ℚ) 5 1 :=
      norm01_mono _ _ (by exact_mod_cast hss)
    have h1 := norm01_nonneg (nzQ p.form) 0 10
    have h2 := norm01_nonneg (nzQ p.ict_index) 0 20
    exact mul_le_mul_of_nonneg_left hmono (by positivity)
  · unfold norm01 clamp01
    norm_num
  · unfold norm01 clamp01
    norm_num

/-- Witness for C4 at a concrete input: form parsed 1 versus 3, opponent
strength 2 versus 4, the `sigmoid0` stand-in. -/
theorem C4_witness :
    nzQ (some (1 : ℚ)) ≤ nzQ (some (3 : ℚ)) ∧
    expected_points_delta sigmoid0
        { emptyElement with form := some 1 } 3 180 ≤
      expected_points_delta sigmoid0
        { emptyElement with form := some 3 } 3 180 ∧
    expected_points_delta sigmoid0 { emptyElement with form := some 3 } 2 180 ≤
      expected_points_delta sigmoid0 { emptyElement with form := some 3 } 4 180 := by
  have hs : ∀ x, 0 ≤ sigmoid0 x := by
    intro x
    unfold sigmoid0
    split_ifs <;> norm_num
  refine ⟨by norm_num [nzQ], ?_, ?_⟩
  · exact (C4_epdelta_monotone sigmoid0 hs emptyElement 3 3 180 (some 1) (some 3)
      none none).1 (by norm_num [nzQ])
  · exact (C4_epdelta_monotone sigmoid0 hs { emptyElement with form := some 3 }
      2 4 180 none none none none).2.2.1 (by norm_num)

theorem dictInsert_mem {α : Type} {acc : List (ℤ × α)} {k : ℤ} {v : α}
    {pr : ℤ × α} (h : pr ∈ dictInsert acc k v) : pr ∈ acc ∨ pr = (k, v) := by
  unfold dictInsert at h
  split at h
  · rcases List.mem_map.mp h with ⟨q, hq, hqe⟩
    by_cases hk : q.1 == k
    · right
      simp [hk] at hqe
      exact hqe.symm
    · left
      simp [hk] at hqe
      exact hqe ▸ hq
  · rcases List.mem_append.mp h with h1 | h1
    · exact Or.inl h1
    · exact Or.inr (List.mem_singleton.mp h1)

theorem ownership_fold_mem (elements : List Element) :
    ∀ (l : List Element) (acc : List (ℤ × ℚ)),
      (∀ e ∈ l, e ∈ elements) →
      (∀ pr ∈ acc, ∃ e ∈ elements, e.id = pr.1 ∧ pr.2 = nzQ e.selected_by_percent) →
      ∀ pr ∈ l.foldl (fun acc e => dictInsert acc e.id (nzQ e.selected_by_percent)) acc,
        ∃ e ∈ elements, e.id = pr.1 ∧ pr.2 = nzQ e.selected_by_percent := by
  intro l
  induction l with
  | nil =>
    intro acc _ hacc pr hpr
    exact hacc pr hpr
  | cons x xs ih =>
    intro acc hsub hacc pr hpr
    refine ih _ (fun e he => hsub e (List.mem_cons_of_mem _ he)) ?_ pr hpr
    intro q hq
    rcases dictInsert_mem hq with h | h
    · exact hacc q h
    · exact ⟨x, hsub x (List.mem_cons_self _ _), by rw [h], by rw [h]⟩

/-- Claim C6 (amended): every value produced by `ownership_index` is the
parsed `selected_by_percent` of some record with that id (missing or
unparsable values parse to `0.0`, and the fold never raises), and all
values are non-negative provided every parsable input is non-negative — a
negative upstream value is passed through unchanged, so unconditional
non-negativity fails (see the counterexample). -/
theorem C6_ownership_parse (elements : List Element) :
    (∀ pr ∈ ownership_index elements,
      ∃ e ∈ elements, e.id = pr.1 ∧ pr.2 = nzQ e.selected_by_percent) ∧
    ((∀ e ∈ elements, ∀ q, e.selected_by_percent = some q → 0 ≤ q) →
      ∀ pr ∈ ownership_index elements, 0 ≤ pr.2) := by
  constructor
  · intro pr hpr
    exact ownership_fold_mem elements elements [] (fun e he => he)
      (fun q hq => absurd hq (List.not_mem_nil q)) pr hpr
  · intro hnn pr hpr
    rcases ownership_fold_mem elements elements [] (fun e he => he)
      (fun q hq => absurd hq (List.not_mem_nil q)) pr hpr with ⟨e, he, _, hval⟩
    rw [hval]
    unfold nzQ
    cases hsel : e.selected_by_percent with
    | none => simp
    | some q =>
      simp only [Option.getD_some]
      exact hnn e he q hsel

/-- A single record with a negative upstream `selected_by_percent`. -/
def elsNeg : List Element := [⟨1, none, none, none, none, none, some (-1), none⟩]

/-- Counterexample to C6 as stated: `ownership_index` emits the negative
parsed value `-1` unchanged. -/
theorem C6_counterexample : ∃ pr ∈ ownership_index elsNeg, pr.2 < 0 := by
  refine ⟨(1, -1), ?_, by norm_num⟩
  decide

/-- A two-record list with one parsable non-negative value and one missing
value. -/
def elsOwnW : List Element :=
  [⟨1, none, none, none, none, none, some 2, none⟩,
   ⟨3, none, none, none, none, none, none, none⟩]

/-- Witness for C6: with non-negative parsable inputs every produced value
is non-negative. -/
theorem C6_witness : ∀ pr ∈ ownership_index elsOwnW, 0 ≤ pr.2 :=
  (C6_ownership_parse elsOwnW).2 (by
    intro e he q hq
    fin_cases he
    · simp_all
      linarith
    · simp_all)

/-- Claim C10: `position_code` always returns one of the four codes and
returns `"MID"` for any `element_type` outside 1–4; in the planner's
positions map a pick whose player record is absent from the bootstrap
elements is therefore assigned `"MID"`. -/
theorem C10_position_code_default :
    (∀ et : ℤ, position_code et = posGK ∨ position_code et = posDEF ∨
      position_code et = posMID ∨ position_code et = posFWD) ∧
    (∀ et : ℤ, et ≠ 1 → et ≠ 2 → et ≠ 3 → et ≠ 4 → position_code et = posMID) ∧
    (∀ (picks : List Pick) (elements : List Element), ∀ p ∈ picks,
      elem_by_id elements p.element = none →
      positionsOf picks elements p.element = some posMID) := by
  refine ⟨?_, ?_, ?_⟩
  · intro et
    unfold position_code
    split_ifs <;> simp
  · intro et h1 h2 h3 h4
    unfold position_code
    split_ifs <;> simp_all
  · intro picks elements p hp hnone
    unfold positionsOf
    have hmem : picks.any (fun q => q.element == p.element) = true :=
      List.any_eq_true.mpr ⟨p, hp, by simp⟩
    rw [if_pos hmem, hnone]
    simp [position_code, posMID, posGK, posDEF, posFWD]

/-- Witness for C10: `element_type` 0 maps to `"MID"`, and a pick whose id
99 has no bootstrap record gets position `"MID"`. -/
theorem C10_witness :
    position_code 0 = posMID ∧
    positionsOf [mkPick 99 1] [] 99 = some posMID := by
  constructor
  · exact (C10_position_code_default.2.1 0 (by norm_num) (by norm_num)
      (by norm_num) (by norm_num))
  · exact C10_position_code_default.2.2 [mkPick 99 1] [] (mkPick 99 1)
      (List.mem_singleton_self _) (by decide)

set_option maxRecDepth 8000 in
/-- Counterexample to C1 as stated: on the blank gameweek `planInput1`
every EPΔ is 0, the current and optimal XIs differ (goalkeeper 2 and
midfielder 11 are optimal but benched), yet no candidate pair reaches the
0.20 gain threshold, so no swap action is emitted and applying the accepted
swaps leaves the current XI unchanged — a set different from
`optimal_start`. -/
theorem C1_counterexample :
    (apply_swap_actions (swap_actions_of (plan_gameweek planInput1))
        (plan_gameweek planInput1).current_start).toFinset ≠
      (plan_gameweek planInput1).optimal_start.toFinset :=
  of_decide_eq_true (by with_unfolding_all rfl)

set_option maxRecDepth 8000 in
/-- Counterexample to C8 as stated: the below-threshold chip action carries
the reason code string `"below_threshold"`, not `"below threshold"`. -/
theorem C8_counterexample :
    ∃ a ∈ (plan_gameweek planInput1).actions, a.typ = tyChip ∧
      a.chip = some chipNONE ∧ a.reason_code ≠ some claimBelowThreshold :=
  of_decide_eq_true (by with_unfolding_all rfl)

theorem mem_setAddRemove (s : List ℤ) (i o x : ℤ) :
    x ∈ setAdd (setRemove s o) i ↔ x = i ∨ (x ∈ s ∧ x ≠ o) := by
  unfold setAdd setRemove
  by_cases hc : (s.filter (fun y => y != o)).contains i
  · rw [if_pos hc]
    simp only [List.mem_filter, bne_iff_ne, ne_eq]
    constructor
    · intro h
      exact Or.inr h
    · intro h
      rcases h with h | h
      · have hm : i ∈ s.filter (fun y => y != o) := by
          simpa using hc
        rw [h]
        simpa [List.mem_filter, bne_iff_ne] using hm
      · exact h
  · rw [if_neg hc]
    simp [List.mem_filter, bne_iff_ne, or_comm]

theorem apply_swap_actions_cons (a : PlanAction) (l : List PlanAction)
    (s : List ℤ) :
    apply_swap_actions (a :: l) s =
      apply_swap_actions l
        (match a.in_player, a.out_player with
         | some i, some o => s.filter (fun pid => pid != o) ++ [i]
         | _, _ => s) := rfl

theorem except_bind_error {ε α β : Type} (e : ε) (f : α → Except ε β) :
    (Except.error e >>= f) = Except.error e := rfl

theorem except_bind_ok {ε α β : Type} (a : α) (f : α → Except ε β) :
    (Except.ok (ε := ε) a >>= f) = f a := rfl

theorem guardStep_ok {st st' : List ℤ × List ℤ} {a : PlanAction}
    (h : guardStep st a = Except.ok st') :
    ∃ i o, a.in_player = some i ∧ a.out_player = some o ∧
      st'.1 = setAdd (setRemove st.1 o) i := by
  unfold guardStep at h
  split at h
  · rename_i i o hin hout
    split at h
    · cases h
    · split at h
      · cases h
      · cases h
        exact ⟨i, o, hin, hout, rfl⟩
  · cases h

theorem guard_fold_mem :
    ∀ (swaps : List PlanAction) (st : List ℤ × List ℤ)
      (res : List ℤ × List ℤ) (s : List ℤ),
      (∀ x, x ∈ st.1 ↔ x ∈ s) →
      swaps.foldlM guardStep st = Except.ok res →
      ∀ x, x ∈ res.1 ↔ x ∈ apply_swap_actions swaps s := by
  intro swaps
  induction swaps with
  | nil =>
    intro st res s hlink hok x
    simp only [List.foldlM_nil] at hok
    cases hok
    exact hlink x
  | cons a rest ih =>
    intro st res s hlink hok x
    rw [List.foldlM_cons] at hok
    cases hg : guardStep st a with
    | error e =>
      rw [hg, except_bind_error] at hok
      cases hok
    | ok st' =>
      rw [hg, except_bind_ok] at hok
      rcases guardStep_ok hg with ⟨i, o, hin, hout, hs1⟩
      rw [apply_swap_actions_cons, hin, hout]
      refine ih st' res _ ?_ hok x
      intro y
      rw [hs1, mem_setAddRemove]
      simp only [List.mem_append, List.mem_filter, bne_iff_ne, ne_eq,
        List.mem_singleton]
      rw [hlink y]
      tauto

theorem plannerGuardrail_ok (elements : List Element)
    (cs cb os : List ℤ) (fo : String) (acts : List PlanAction)
    (h : plannerGuardrail elements cs cb os fo acts = Except.ok ()) :
    (apply_swap_actions
        (sortSwapsForGuardrail (acts.filter (fun a => a.typ == tySwap)))
        cs).toFinset = os.toFinset ∧
      formation_str os (guardrail_positions elements cs os) = fo := by
  unfold plannerGuardrail at h
  dsimp only at h
  split at h
  · cases h
  · rename_i st hfold
    split at h
    · cases h
    · split at h
      · cases h
      · rename_i hsort hform
        rw [not_ne_iff] at hsort hform
        have hmem : ∀ x, x ∈ st.1 ↔ x ∈ apply_swap_actions
            (sortSwapsForGuardrail (acts.filter (fun a => a.typ == tySwap))) cs := by
          refine guard_fold_mem _ (cs.dedup, cb.dedup) st cs ?_ hfold
          intro x
          exact List.mem_dedup
        have hos : ∀ x, x ∈ st.1 ↔ x ∈ os := by
          intro x
          have h1 : x ∈ st.1 ↔ x ∈ List.insertionSort (· ≤ ·) st.1 :=
            (List.perm_insertionSort _ st.1).mem_iff.symm
          have h2 : x ∈ os ↔ x ∈ List.insertionSort (· ≤ ·) os :=
            (List.perm_insertionSort _ os).mem_iff.symm
          rw [h1, h2, hsort]
        refine ⟨?_, hform⟩
        ext x
        rw [List.mem_toFinset, List.mem_toFinset, ← hmem x, hos x]

/-- Claim C3: whenever applying the accepted swap actions in ascending
`(bundle, priority)` order to the current XI does not reproduce the optimal
XI as a set, or the reported optimal formation does not match the formation
string derived directly from positions, the planner guardrail of
`routes.py` (wrapping `plan_gameweek` for the request) yields an error —
surfaced as the HTTP 500 `Planner validation failed` condition — instead of
letting the plan through. -/
theorem C3_guardrail_mismatch_fatal (elements : List Element)
    (cs cb os : List ℤ) (fo : String) (acts : List PlanAction)
    (h : (apply_swap_actions
        (sortSwapsForGuardrail (acts.filter (fun a => a.typ == tySwap)))
        cs).toFinset ≠ os.toFinset ∨
      formation_str os (guardrail_positions elements cs os) ≠ fo) :
    ∃ msg, plannerGuardrail elements cs cb os fo acts = Except.error msg := by
  cases hr : plannerGuardrail elements cs cb os fo acts with
  | error e => exact ⟨e, rfl⟩
  | ok u =>
    cases u
    rcases h with h | h
    · exact absurd (plannerGuardrail_ok elements cs cb os fo acts hr).1 h
    · exact absurd (plannerGuardrail_ok elements cs cb os fo acts hr).2 h

set_option maxRecDepth 8000 in
/-- Witness for C3 at `planInput1`: the produced plan cannot be
reconstructed by its own swap actions, and the guardrail indeed errors. -/
theorem C3_witness :
    ∃ msg, plannerGuardrail planInput1.elements
      (plan_gameweek planInput1).current_start
      (plan_gameweek planInput1).current_bench
      (plan_gameweek planInput1).optimal_start
      (plan_gameweek planInput1).formation_optimal
      (plan_gameweek planInput1).actions = Except.error msg :=
  C3_guardrail_mismatch_fatal planInput1.elements
    (plan_gameweek planInput1).current_start
    (plan_gameweek planInput1).current_bench
    (plan_gameweek planInput1).optimal_start
    (plan_gameweek planInput1).formation_optimal
    (plan_gameweek planInput1).actions
    (Or.inl (of_decide_eq_true (by with_unfolding_all rfl)))

/-- Claim C8 (amended): every returned plan contains exactly one chip
action; it has priority 90, recommends `BB` exactly when the optimal
bench's summed EPΔ is at least 12.0, otherwise `TC` exactly when the
captain's own EPΔ is at least 4.0, and otherwise `NONE` with reason code
`"below_threshold"` (the source string uses an underscore, not the space
quoted in the claim). -/
theorem C8_chip_action (inp : PlanInput) :
    ∃ a, (plan_gameweek inp).actions.filter (fun x => x.typ == tyChip) = [a] ∧
      a.priority = 90 ∧
      (a.chip = some chipBB ↔
        12 ≤ ((plan_gameweek inp).optimal_bench.map (planEpGet inp)).sum) ∧
      (a.chip = some chipTC ↔
        (((plan_gameweek inp).optimal_bench.map (planEpGet inp)).sum < 12 ∧
          4 ≤ planEpGet inp (plan_gameweek inp).captain)) ∧
      (a.chip = some chipNONE ↔
        (((plan_gameweek inp).optimal_bench.map (planEpGet inp)).sum < 12 ∧
          planEpGet inp (plan_gameweek inp).captain < 4)) ∧
      (a.chip = some chipNONE → a.reason_code = some rcBelowThreshold) := by
  have hbench : (plan_gameweek inp).optimal_bench = (planOptimal inp).2 := rfl
  have hcap : (plan_gameweek inp).captain = (planCaptainVice inp).1 := rfl
  have hacts : (plan_gameweek inp).actions = planActions inp := rfl
  rw [hacts, hbench, hcap]
  unfold planActions
  dsimp only
  rw [List.filter_append, List.filter_append, List.filter_append]
  have hswaps : (((planChosen inp).chosen.enum).map
      (fun kp => swapAction inp.gw (planEpGet inp) kp.1 kp.2)).filter
        (fun x => x.typ == tyChip) = [] := by
    rw [List.filter_eq_nil_iff]
    intro a ha
    rcases List.mem_map.mp ha with ⟨kp, _, hkp⟩
    rw [← hkp]
    simp [swapAction, tySwap, tyChip]
  have hcaps : ∀ (l : List PlanAction), (∀ a ∈ l, a.typ ≠ tyChip) →
      l.filter (fun x => x.typ == tyChip) = [] := by
    intro l hl
    rw [List.filter_eq_nil_iff]
    intro a ha
    simpa using hl a ha
  rw [hswaps]
  rw [hcaps _ (by
    split
    · intro a ha
      rw [List.mem_singleton.mp ha]
      simp [tySetCaptain, tyChip]
    · intro a ha
      cases ha)]
  rw [hcaps _ (by
    split
    · intro a ha
      rw [List.mem_singleton.mp ha]
      simp [tySetVice, tyChip]
    · intro a ha
      cases ha)]
  simp only [List.nil_append]
  have hone : ∀ (act : PlanAction), act.typ = tyChip →
      List.filter (fun x => x.typ == tyChip) [act] = [act] := by
    intro act hact
    simp [List.filter, hact]
  rw [hone _ rfl]
  have hbb : planChipEval inp = evaluate_chips (planEpGet inp)
      (planCaptainVice inp).1 (planOptimal inp).2 := rfl
  have hgain : (planChipEval inp).bench_boost_gain =
      ((planOptimal inp).2.map (planEpGet inp)).sum := rfl
  have htc : (planChipEval inp).triple_captain_gain =
      planEpGet inp (planCaptainVice inp).1 := rfl
  by_cases h12 : (12 : ℚ) ≤ (planChipEval inp).bench_boost_gain
  · rw [if_pos h12, if_neg (by decide)]
    refine ⟨_, rfl, rfl, ?_, ?_, ?_, ?_⟩
    · simp only [Option.some.injEq]
      constructor
      · intro _
        rw [← hgain]
        exact h12
      · intro _
        trivial
    · simp only [Option.some.injEq]
      constructor
      · intro hbad
        exact absurd hbad (by decide)
      · intro hc
        rw [← hgain] at hc
        exact absurd h12 (not_le_of_lt hc.1)
    · simp only [Option.some.injEq]
      constructor
      · intro hbad
        exact absurd hbad (by decide)
      · intro hc
        rw [← hgain] at hc
        exact absurd h12 (not_le_of_lt hc.1)
    · intro hbad
      simp only [Option.some.injEq] at hbad
      exact absurd hbad (by decide)
  · by_cases h4 : (4 : ℚ) ≤ (planChipEval inp).triple_captain_gain
    · rw [if_neg h12, if_pos h4, if_neg (by decide)]
      refine ⟨_, rfl, rfl, ?_, ?_, ?_, ?_⟩
      · simp only [Option.some.injEq]
        constructor
        · intro hbad
          exact absurd hbad (by decide)
        · intro hc
          rw [← hgain] at hc
          exact absurd hc h12
      · simp only [Option.some.injEq]
        constructor
        · intro _
          refine ⟨?_, ?_⟩
          · rw [← hgain]
            exact lt_of_not_le h12
          · rw [← htc]
            exact h4
        · intro _
          trivial
      · simp only [Option.some.injEq]
        constructor
        · intro hbad
          exact absurd hbad (by decide)
        · intro hc
          rw [← htc] at hc
          exact absurd h4 (not_le_of_lt hc.2)
      · intro hbad
        simp only [Option.some.injEq] at hbad
        exact absurd hbad (by decide)
    · rw [if_neg h12, if_neg h4, if_pos rfl]
      refine ⟨_, rfl, rfl, ?_, ?_, ?_, ?_⟩
      · simp only [Option.some.injEq]
        constructor
        · intro hbad
          exact absurd hbad (by decide)
        · intro hc
          rw [← hgain] at hc
          exact absurd hc h12
      · simp only [Option.some.injEq]
        constructor
        · intro hbad
          exact absurd hbad (by decide)
        · intro hc
          rw [← htc] at hc
          exact absurd hc.2 h4
      · simp only [Option.some.injEq, true_iff]
        refine ⟨?_, ?_⟩
        · rw [← hgain]
          exact lt_of_not_le h12
        · rw [← htc]
          exact lt_of_not_le h4
      · intro _
        rfl

/-- Replay a list of accepted pairs over a starting list. -/
def applyPairs (l : List (ℤ × ℤ × ℚ)) (s : List ℤ) : List ℤ :=
  l.foldl (fun s q => s.filter (fun pid => pid != q.2.1) ++ [q.1]) s

theorem apply_swap_actions_eq_applyPairs :
    ∀ (l : List (ℤ × ℤ × ℚ)) (as : List PlanAction) (s : List ℤ),
      as.map (fun a => (a.in_player, a.out_player)) =
        l.map (fun q => (some q.1, some q.2.1)) →
      apply_swap_actions as s = applyPairs l s := by
  intro l
  induction l with
  | nil =>
    intro as s h
    have : as = [] := by
      cases as with
      | nil => rfl
      | cons a t => simp at h
    rw [this]
    rfl
  | cons q t ih =>
    intro as s h
    cases as with
    | nil => simp at h
    | cons a rest =>
      simp only [List.map_cons, List.cons.injEq, Prod.mk.injEq] at h
      rcases h with ⟨⟨hin, hout⟩, hrest⟩
      rw [apply_swap_actions_cons, hin, hout]
      exact ih rest _ hrest

theorem greedy_chosen_trial (positions : ℤ → Option String) :
    ∀ (pl : List (ℤ × ℤ × ℚ)) (st : GreedyState),
      ∃ suffix, (pl.foldl (greedyStep positions) st).chosen = st.chosen ++ suffix ∧
        (pl.foldl (greedyStep positions) st).trial = applyPairs suffix st.trial := by
  intro pl
  induction pl with
  | nil =>
    intro st
    exact ⟨[], by simp, rfl⟩
  | cons q t ih =>
    intro st
    rw [List.foldl_cons]
    unfold greedyStep
    split
    · exact ih st
    · split
      · rcases ih ⟨st.chosen ++ [q], st.used_in ++ [q.1], st.used_out ++ [q.2.1],
          st.trial.filter (fun pid => pid != q.2.1) ++ [q.1]⟩ with ⟨suf, hch, htr⟩
        refine ⟨q :: suf, hch.trans ?_, htr.trans ?_⟩
        · simp
        · rfl
      · exact ih st

theorem greedy_trial_containment (positions : ℤ → Option String)
    (cs os : List ℤ) :
    ∀ (pl : List (ℤ × ℤ × ℚ)) (st : GreedyState),
      (∀ q ∈ pl, q.1 ∈ os ∧ q.2.1 ∈ cs ∧ q.2.1 ∉ os) →
      (∀ x ∈ st.trial, x ∈ cs ∨ x ∈ os) →
      (∀ x, x ∈ cs → x ∈ os → x ∈ st.trial) →
      (∀ x ∈ (pl.foldl (greedyStep positions) st).trial, x ∈ cs ∨ x ∈ os) ∧
        (∀ x, x ∈ cs → x ∈ os → x ∈ (pl.foldl (greedyStep positions) st).trial) := by
  intro pl
  induction pl with
  | nil =>
    intro st _ h1 h2
    exact ⟨h1, h2⟩
  | cons q t ih =>
    intro st hP h1 h2
    rw [List.foldl_cons]
    unfold greedyStep
    split
    · exact ih st (fun p hp => hP p (List.mem_cons_of_mem _ hp)) h1 h2
    · split
      · rcases hP q (List.mem_cons_self _ _) with ⟨hi, ho, hno⟩
        refine ih _ (fun p hp => hP p (List.mem_cons_of_mem _ hp)) ?_ ?_
        · intro x hx
          rcases List.mem_append.mp hx with hx | hx
          · exact h1 x (List.mem_of_mem_filter hx)
          · rw [List.mem_singleton.mp hx]
            exact Or.inr hi
        · intro x hxc hxo
          refine List.mem_append.mpr (Or.inl ?_)
          refine List.mem_filter.mpr ⟨h2 x hxc hxo, ?_⟩
          simp only [bne_iff_ne, ne_eq]
          intro he
          rw [he] at hxo
          exact hno hxo
      · exact ih st (fun p hp => hP p (List.mem_cons_of_mem _ hp)) h1 h2

theorem planPairs_mem (inp : PlanInput) :
    ∀ q ∈ planPairs inp, q.1 ∈ (planOptimal inp).1 ∧
      q.2.1 ∈ (planCurrent inp).1 ∧ q.2.1 ∉ (planOptimal inp).1 := by
  intro q hq
  rw [planPairs, mem_sortByKeyDesc] at hq
  unfold planPairs0 at hq
  rw [List.mem_flatten] at hq
  rcases hq with ⟨l, hl, hql⟩
  rw [List.mem_map] at hl
  rcases hl with ⟨i, hi, hli⟩
  rw [← hli, List.mem_filterMap] at hql
  rcases hql with ⟨o, ho, hqo⟩
  rw [List.mem_filter] at hi ho
  have hio : q = (i, o, planEpGet inp i - planEpGet inp o) := by
    dsimp only at hqo
    split at hqo
    · exact (Option.some.injEq _ _ ▸ hqo).symm
    · cases hqo
  subst hio
  refine ⟨hi.1, ho.1, ?_⟩
  have := ho.2
  simpa [List.contains_iff_exists_mem_beq] using this

/-- Claim C1 (amended): the plan's swap actions appear in ascending
priority order 10, 11, … and share the single `lineup-<gw>-1` bundle, and
applying them in that order to `current_start` yields a starting set `S`
with `current ∩ optimal ⊆ S ⊆ current ∪ optimal`; `S` is not guaranteed to
equal `optimal_start`, because a pair whose EPΔ gain is below 0.20 is never
a swap candidate (see the counterexample). -/
theorem C1_swap_actions (inp : PlanInput) :
    ((swap_actions_of (plan_gameweek inp)).map (·.priority) =
      (List.range (swap_actions_of (plan_gameweek inp)).length).map
        (fun k : ℕ => 10 + (k : ℤ))) ∧
    (∀ a ∈ swap_actions_of (plan_gameweek inp),
      a.bundle_id = some ("lineup-" ++ toString inp.gw ++ "-1")) ∧
    ((plan_gameweek inp).current_start.toFinset ∩
        (plan_gameweek inp).optimal_start.toFinset ⊆
      (apply_swap_actions (swap_actions_of (plan_gameweek inp))
        (plan_gameweek inp).current_start).toFinset) ∧
    ((apply_swap_actions (swap_actions_of (plan_gameweek inp))
        (plan_gameweek inp).current_start).toFinset ⊆
      (plan_gameweek inp).current_start.toFinset ∪
        (plan_gameweek inp).optimal_start.toFinset) := by
  have hcs : (plan_gameweek inp).current_start = (planCurrent inp).1 := rfl
  have hos : (plan_gameweek inp).optimal_start = (planOptimal inp).1 := rfl
  have hacts : (plan_gameweek inp).actions = planActions inp := rfl
  -- The swap actions are exactly the enumerated accepted pairs.
  have hsw : swap_actions_of (plan_gameweek inp) =
      ((planChosen inp).chosen.enum).map
        (fun kp => swapAction inp.gw (planEpGet inp) kp.1 kp.2) := by
    unfold swap_actions_of
    rw [hacts]
    unfold planActions
    dsimp only
    rw [List.filter_append, List.filter_append, List.filter_append]
    have h1 : (((planChosen inp).chosen.enum).map
        (fun kp => swapAction inp.gw (planEpGet inp) kp.1 kp.2)).filter
          (fun a => a.typ == tySwap) =
        ((planChosen inp).chosen.enum).map
          (fun kp => swapAction inp.gw (planEpGet inp) kp.1 kp.2) := by
      rw [List.filter_eq_self]
      intro a ha
      rcases List.mem_map.mp ha with ⟨kp, _, hkp⟩
      rw [← hkp]
      simp [swapAction]
    have hnone : ∀ (l : List PlanAction), (∀ a ∈ l, a.typ ≠ tySwap) →
        l.filter (fun x => x.typ == tySwap) = [] := by
      intro l hl
      rw [List.filter_eq_nil_iff]
      intro a ha
      simpa using hl a ha
    rw [h1]
    rw [hnone _ (by
      split
      · intro a ha
        rw [List.mem_singleton.mp ha]
        simp [tySetCaptain, tySwap]
      · intro a ha
        cases ha)]
    rw [hnone _ (by
      split
      · intro a ha
        rw [List.mem_singleton.mp ha]
        simp [tySetVice, tySwap]
      · intro a ha
        cases ha)]
    rw [hnone [_] (by
      intro a ha
      rw [List.mem_singleton.mp ha]
      simp [tyChip, tySwap])]
    simp
  -- The greedy state replayed: trial = applyPairs chosen cs.
  have hgreedy : (planChosen inp).chosen = (planChosen inp).chosen ∧
      (planChosen inp).trial =
        applyPairs (planChosen inp).chosen (planCurrent inp).1 := by
    unfold planChosen greedySwaps
    rcases greedy_chosen_trial (positionsOf inp.picks inp.elements)
      (planPairs inp) ⟨[], [], [], (planCurrent inp).1⟩ with ⟨suf, hch, htr⟩
    dsimp only at hch htr
    rw [List.nil_append] at hch
    exact ⟨rfl, htr.trans
      (congrArg (fun l => applyPairs l (planCurrent inp).1) hch.symm)⟩
  have happly : apply_swap_actions (swap_actions_of (plan_gameweek inp))
      (planCurrent inp).1 = (planChosen inp).trial := by
    rw [hgreedy.2]
    refine apply_swap_actions_eq_applyPairs _ _ _ ?_
    rw [hsw, List.map_map]
    have hmap : ((fun a => (a.in_player, a.out_player)) ∘
        fun kp : ℕ × (ℤ × ℤ × ℚ) => swapAction inp.gw (planEpGet inp) kp.1 kp.2) =
        (fun q : ℤ × ℤ × ℚ => (some q.1, some q.2.1)) ∘ Prod.snd := by
      funext kp
      rfl
    rw [hmap, ← List.map_map, List.enum_map_snd]
  have hcontain := greedy_trial_containment
    (positionsOf inp.picks inp.elements) (planCurrent inp).1 (planOptimal inp).1
    (planPairs inp) ⟨[], [], [], (planCurrent inp).1⟩
    (planPairs_mem inp)
    (fun x hx => Or.inl hx)
    (fun x hx _ => hx)
  refine ⟨?_, ?_, ?_, ?_⟩
  · rw [hsw, List.map_map]
    have hmap : ((fun a : PlanAction => a.priority) ∘
        fun kp : ℕ × (ℤ × ℤ × ℚ) => swapAction inp.gw (planEpGet inp) kp.1 kp.2) =
        (fun k : ℕ => 10 + (k : ℤ)) ∘ Prod.fst := by
      funext kp
      rfl
    rw [hmap, ← List.map_map, List.enum_map_fst, List.length_map,
      List.enum_length]
  · intro a ha
    rw [hsw] at ha
    rcases List.mem_map.mp ha with ⟨kp, _, hkp⟩
    rw [← hkp]
    rfl
  · intro x hx
    rw [Finset.mem_inter, List.mem_toFinset, List.mem_toFinset, hcs, hos] at hx
    rw [hcs, happly, List.mem_toFinset]
    exact hcontain.2 x hx.1 hx.2
  · intro x hx
    rw [hcs, happly, List.mem_toFinset] at hx
    rw [Finset.mem_union, List.mem_toFinset, List.mem_toFinset, hcs, hos]
    exact hcontain.1 x hx


theorem suggestStep_spec (elements : List Element) (cand scored : List (ℤ × ℚ))
    (allowance : ℤ) (st : TState) (o : ℤ) :
    suggestStep elements cand scored allowance st o = st ∨
    ∃ best, best ∈ cand.filter (stepPred elements scored allowance st o) ∧
      (suggestStep elements cand scored allowance st o).suggestions =
        st.suggestions ++ [⟨o, best.1, stepOutEpd scored o, best.2⟩] := by
  unfold suggestStep
  split
  · exact Or.inl rfl
  · rename_i best tail hsort
    refine Or.inr ⟨best, ?_, rfl⟩
    rw [← mem_sortByKeyDesc (fun c => c.2), hsort]
    exact List.mem_cons_self _ _

theorem suggestStep_suffix (elements : List Element) (cand scored : List (ℤ × ℚ))
    (allowance : ℤ) :
    ∀ (sells : List ℤ) (st : TState),
      ∃ tail, (sells.foldl (suggestStep elements cand scored allowance) st).suggestions =
        st.suggestions ++ tail := by
  intro sells
  induction sells with
  | nil =>
    intro st
    exact ⟨[], by simp⟩
  | cons o rest ih =>
    intro st
    rw [List.foldl_cons]
    rcases ih (suggestStep elements cand scored allowance st o) with ⟨tail, htail⟩
    rcases suggestStep_spec elements cand scored allowance st o with h | ⟨best, _, happ⟩
    · rw [h]
      exact ih st
    · rw [htail, happ, List.append_assoc]
      exact ⟨_, rfl⟩

theorem suggest_head_budget (elements : List Element)
    (cand scored : List (ℤ × ℚ)) :
    ∀ (sells : List ℤ) (st : TState) (s : Suggestion),
      st.suggestions = [] → st.bank = 0 →
      ((sells.foldl (suggestStep elements cand scored 0) st).suggestions.head? =
        some s) →
      (player_meta elements s.inId).now_cost ≤
        (player_meta elements s.outId).now_cost := by
  intro sells
  induction sells with
  | nil =>
    intro st s hsug hbank hhead
    rw [List.foldl_nil, hsug] at hhead
    cases hhead
  | cons o rest ih =>
    intro st s hsug hbank hhead
    rw [List.foldl_cons] at hhead
    rcases suggestStep_spec elements cand scored 0 st o with h | ⟨best, hmem, happ⟩
    · rw [h] at hhead
      exact ih st s hsug hbank hhead
    · rcases suggestStep_suffix elements cand scored 0 rest
        (suggestStep elements cand scored 0 st o) with ⟨tail, htail⟩
      rw [htail, happ, hsug, List.nil_append, List.cons_append,
        List.head?_cons] at hhead
      have hs : s = ⟨o, best.1, stepOutEpd scored o, best.2⟩ := by
        cases hhead
        rfl
      rw [List.mem_filter] at hmem
      have hcond := hmem.2
      unfold stepPred at hcond
      simp only [Bool.and_eq_true, Bool.not_eq_true'] at hcond
      have hbudget := hcond.1.2
      rw [hbank] at hbudget
      have hle : (player_meta elements best.1).now_cost -
          (player_meta elements o).now_cost ≤ 0 := by
        have := of_decide_eq_false hbudget
        omega
      rw [hs]
      dsimp only
      omega

/-- Claim C5 (amended): with `bank = 0` and `bank_allowance = 0` the *first*
suggestion never pairs an incoming player costing more than the outgoing
player — its budget check runs while the simulated bank is still 0.  Later
suggestions may exceed the outgoing player's cost, because earlier
sell-downs increase the running bank the check is made against (see the
counterexample). -/
theorem C5_first_suggestion_within_budget (sig : ℚ → ℚ)
    (pick_rows : List PickRow) (elements : List Element) (s : Suggestion)
    (h : (suggest_transfers sig pick_rows elements 0 0).head? = some s) :
    (player_meta elements s.inId).now_cost ≤
      (player_meta elements s.outId).now_cost := by
  unfold suggest_transfers at h
  dsimp only at h
  exact suggest_head_budget elements _ _ _ _ s rfl rfl h

/-- A four-player bootstrap for the transfer counterexample: starters 101
(forward, cost 140) and 102 (midfielder, cost 40), non-squad candidates 201
(forward, cost 50) and 202 (midfielder, cost 80), with forms ordered so
each candidate is a strict upgrade. -/
def elsT : List Element :=
  [⟨101, some 4, some 1, some 1, none, some 180, none, some 140⟩,
   ⟨102, some 3, some 2, some 2, none, some 180, none, some 40⟩,
   ⟨201, some 4, some 3, some 3, none, some 180, none, some 50⟩,
   ⟨202, some 3, some 4, some 4, none, some 180, none, some 80⟩]

/-- The two linked starting rows for the transfer counterexample. -/
def rowsT : List PickRow :=
  [⟨101, 1, some ⟨101, some 4, some 1, some 1, none, some 180, none, some 140⟩,
    some ⟨false, none, some 3⟩⟩,
   ⟨102, 1, some ⟨102, some 3, some 2, some 2, none, some 180, none, some 40⟩,
    some ⟨false, none, some 3⟩⟩]

/-- Counterexample to C5 as stated: with bank 0 and allowance 0, selling
101 (cost 140) for 201 (cost 50) banks 60 tenths, after which 202 (cost 80)
is suggested for 102 (cost 40) — an incoming player costing more than the
outgoing one. -/
theorem C5_counterexample :
    ∃ s ∈ suggest_transfers sigmoid0 rowsT elsT 0 0,
      (player_meta elsT s.outId).now_cost < (player_meta elsT s.inId).now_cost :=
  of_decide_eq_true (by with_unfolding_all rfl)

/-- Witness for C5: the first suggestion of the same run (101 out, 201 in)
respects the zero budget. -/
theorem C5_witness :
    (player_meta elsT (201 : ℤ)).now_cost ≤ (player_meta elsT (101 : ℤ)).now_cost :=
  C5_first_suggestion_within_budget sigmoid0 rowsT elsT
    ⟨101, 201, 9/100, 27/100⟩ (of_decide_eq_true (by with_unfolding_all rfl))

theorem fill_step_spec (positions : ℤ → Option String) :
    ∀ (rem : List (ℤ × ℚ)) (sel : List ℤ) (cnt : String → ℕ),
      (∀ c, cnt c = sel.countP (fun pid => groupPos positions pid == c)) →
      (∀ c, cnt c + rem.countP (fun p => groupPos positions p.1 == c) ≤
        MAX_BY_POS c) →
      (rem.map Prod.fst).Nodup →
      (∀ p ∈ rem, p.1 ∉ sel) →
      sel.Nodup →
      sel.length ≤ 11 →
      (fill_step positions sel cnt rem).1.length = min 11 (sel.length + rem.length) ∧
      (fill_step positions sel cnt rem).1.Nodup ∧
      (∀ c, (fill_step positions sel cnt rem).2 c =
        (fill_step positions sel cnt rem).1.countP
          (fun pid => groupPos positions pid == c)) ∧
      (∀ c, cnt c ≤ (fill_step positions sel cnt rem).2 c) ∧
      (∀ c, (fill_step positions sel cnt rem).2 c ≤ MAX_BY_POS c) ∧
      (∀ x ∈ (fill_step positions sel cnt rem).1, x ∈ sel ∨ x ∈ rem.map Prod.fst) := by
  intro rem
  induction rem with
  | nil =>
    intro sel cnt hcnt hcap hnd hdisj hselnd hlen
    refine ⟨?_, hselnd, hcnt, fun c => le_refl _, ?_, ?_⟩
    · simp only [fill_step, List.length_nil, Nat.add_zero]
      exact (Nat.min_eq_right hlen).symm
    · intro c
      have := hcap c
      simpa using this
    · intro x hx
      exact Or.inl hx
  | cons q rest ih =>
    intro sel cnt hcnt hcap hnd hdisj hselnd hlen
    rw [show fill_step positions sel cnt (q :: rest) =
      (if 11 ≤ sel.length then (sel, cnt)
       else if cnt (groupPos positions q.1) <
           MAX_BY_POS (groupPos positions q.1) then
         fill_step positions (sel ++ [q.1])
           (fun c => if c = groupPos positions q.1 then cnt c + 1 else cnt c) rest
       else fill_step positions sel cnt rest) from rfl]
    by_cases h11 : 11 ≤ sel.length
    · rw [if_pos h11]
      have hsel11 : sel.length = 11 := le_antisymm hlen h11
      refine ⟨?_, hselnd, hcnt, fun c => le_refl _, ?_, fun x hx => Or.inl hx⟩
      · rw [hsel11]
        have : 11 ≤ 11 + (q :: rest).length := Nat.le_add_right _ _
        exact (Nat.min_eq_left this).symm
      · intro c
        calc cnt c ≤ cnt c + (q :: rest).countP
              (fun p => groupPos positions p.1 == c) := Nat.le_add_right _ _
          _ ≤ MAX_BY_POS c := hcap c
    · rw [if_neg h11]
      have hacc : cnt (groupPos positions q.1) <
          MAX_BY_POS (groupPos positions q.1) := by
        have hc := hcap (groupPos positions q.1)
        rw [List.countP_cons] at hc
        simp only [beq_self_eq_true, if_true] at hc
        omega
      rw [if_pos hacc]
      have hlt : sel.length < 11 := lt_of_not_le h11
      have hq1 : q.1 ∉ sel := hdisj q (List.mem_cons_self _ _)
      have hrec := ih (sel ++ [q.1])
        (fun c => if c = groupPos positions q.1 then cnt c + 1 else cnt c)
        (by
          intro c
          dsimp only
          by_cases hc : c = groupPos positions q.1
          · rw [if_pos hc, List.countP_append, ← hcnt c]
            have h1 : List.countP (fun pid => groupPos positions pid == c) [q.1] = 1 := by
              simp [List.countP_cons, hc]
            omega
          · rw [if_neg hc, List.countP_append, ← hcnt c]
            have h1 : List.countP (fun pid => groupPos positions pid == c) [q.1] = 0 := by
              simp only [List.countP_cons, List.countP_nil]
              have hne : (groupPos positions q.1 == c) = false := by
                simp only [beq_eq_false_iff_ne, ne_eq]
                exact fun he => hc he.symm
              rw [hne]
              simp
            omega)
        (by
          intro c
          dsimp only
          by_cases hc : c = groupPos positions q.1
          · rw [if_pos hc]
            have hcc := hcap c
            rw [List.countP_cons] at hcc
            have heq : (groupPos positions q.1 == c) = true := by
              rw [hc]
              exact beq_self_eq_true _
            rw [heq] at hcc
            simp only [if_true] at hcc
            omega
          · rw [if_neg hc]
            have hcc := hcap c
            rw [List.countP_cons] at hcc
            have hne : (groupPos positions q.1 == c) = false := by
              simp only [beq_eq_false_iff_ne, ne_eq]
              exact fun he => hc he.symm
            rw [hne] at hcc
            simpa using hcc)
        (by
          rw [List.map_cons] at hnd
          exact hnd.of_cons)
        (by
          intro p hp
          have hmem : p.1 ∉ sel := hdisj p (List.mem_cons_of_mem _ hp)
          rw [List.mem_append, List.mem_singleton]
          rintro (h | h)
          · exact hmem h
          · rw [List.map_cons] at hnd
            have : p.1 ∈ rest.map Prod.fst := List.mem_map_of_mem _ hp
            rw [h] at this
            exact (List.nodup_cons.mp hnd).1 this)
        (by
          rw [List.nodup_append]
          refine ⟨hselnd, List.nodup_singleton _, fun a ha hb => ?_⟩
          rw [List.mem_singleton.mp hb] at ha
          exact hq1 ha)
        (by
          rw [List.length_append, List.length_singleton]
          omega)
      refine ⟨?_, hrec.2.1, hrec.2.2.1, ?_, hrec.2.2.2.2.1, ?_⟩
      · rw [hrec.1]
        rw [List.length_append, List.length_singleton, List.length_cons]
        omega
      · intro c
        refine le_trans ?_ (hrec.2.2.2.1 c)
        dsimp only
        by_cases hc : c = groupPos positions q.1
        · rw [if_pos hc]
          omega
        · rw [if_neg hc]
      · intro x hx
        rcases hrec.2.2.2.2.2 x hx with hx' | hx'
        · rcases List.mem_append.mp hx' with hx'' | hx''
          · exact Or.inl hx''
          · rw [List.mem_singleton.mp hx'']
            refine Or.inr ?_
            rw [List.map_cons]
            exact List.mem_cons_self _ _
        · refine Or.inr ?_
          rw [List.map_cons]
          exact List.mem_cons_of_mem _ hx'

theorem bucket_mem (ep : List (ℤ × ℚ)) (positions : ℤ → Option String)
    (c : String) (p : ℤ × ℚ) :
    p ∈ bucketOf ep positions c ↔ p ∈ ep ∧ groupPos positions p.1 = c := by
  unfold bucketOf
  rw [mem_sortByKeyDesc, List.mem_filter]
  simp

theorem bucket_len (ep : List (ℤ × ℚ)) (positions : ℤ → Option String)
    (c : String) :
    (bucketOf ep positions c).length =
      ep.countP (fun p => groupPos positions p.1 == c) := by
  unfold bucketOf
  rw [(sortByKeyDesc_perm _ _).length_eq, ← List.countP_eq_length_filter]

theorem bucket_fst_nodup (ep : List (ℤ × ℚ)) (positions : ℤ → Option String)
    (c : String) (hnd : (ep.map Prod.fst).Nodup) :
    ((bucketOf ep positions c).map Prod.fst).Nodup := by
  unfold bucketOf
  have hperm : ((sortByKeyDesc (fun p => p.2)
      (ep.filter (fun p => groupPos positions p.1 == c))).map Prod.fst).Perm
      ((ep.filter (fun p => groupPos positions p.1 == c)).map Prod.fst) :=
    (sortByKeyDesc_perm _ _).map _
  rw [hperm.nodup_iff]
  exact ((List.filter_sublist ep).map Prod.fst).nodup hnd

theorem stageB_spec (sel : List ℤ) (cnt : String → ℕ)
    (bucket : List (ℤ × ℚ)) (positions : ℤ → Option String) (pos : String)
    (hcnt : ∀ c, cnt c = sel.countP (fun pid => groupPos positions pid == c))
    (hbpos : ∀ p ∈ bucket, groupPos positions p.1 = pos)
    (hdis : ∀ p ∈ bucket, p.1 ∉ sel)
    (hlen : MIN_BY_POS pos ≤ bucket.length)
    (hnd : (bucket.map Prod.fst).Nodup) (hselnd : sel.Nodup) :
    (stageB sel cnt bucket pos).1 =
      sel ++ (bucket.map (·.1)).take (MIN_BY_POS pos) ∧
    (stageB sel cnt bucket pos).1.length = sel.length + MIN_BY_POS pos ∧
    (stageB sel cnt bucket pos).1.Nodup ∧
    (∀ c, (stageB sel cnt bucket pos).2 c =
      (stageB sel cnt bucket pos).1.countP
        (fun pid => groupPos positions pid == c)) := by
  have hfil : bucket.filter (fun p => !sel.contains p.1) = bucket := by
    rw [List.filter_eq_self]
    intro p hp
    simpa using hdis p hp
  have htake_pos : ∀ x ∈ (bucket.map (·.1)).take (MIN_BY_POS pos),
      groupPos positions x = pos := by
    intro x hx
    have hx' : x ∈ bucket.map (·.1) := List.mem_of_mem_take hx
    rcases List.mem_map.mp hx' with ⟨p, hp, hpe⟩
    rw [← hpe]
    exact hbpos p hp
  have heq : (stageB sel cnt bucket pos).1 =
      sel ++ (bucket.map (·.1)).take (MIN_BY_POS pos) := by
    unfold stageB
    rw [hfil]
  refine ⟨heq, ?_, ?_, ?_⟩
  · rw [heq, List.length_append, List.length_take, List.length_map,
      Nat.min_eq_left hlen]
  · rw [heq, List.nodup_append]
    refine ⟨hselnd, (List.take_sublist _ _).nodup hnd, ?_⟩
    intro a ha hb
    have hab : a ∈ bucket.map (·.1) := List.mem_of_mem_take hb
    rcases List.mem_map.mp hab with ⟨p, hp, hpe⟩
    rw [← hpe] at ha
    exact hdis p hp ha
  · intro c
    have h2 : (stageB sel cnt bucket pos).2 c =
        if c = pos then cnt c + min (bucket.map (·.1)).length (MIN_BY_POS pos)
        else cnt c := by
      unfold stageB
      rw [hfil]
    rw [h2, heq, List.countP_append, hcnt c]
    by_cases hc : c = pos
    · rw [if_pos hc]
      have hall1 : ((bucket.map (·.1)).take (MIN_BY_POS pos)).countP
          (fun pid => groupPos positions pid == c) =
          ((bucket.map (·.1)).take (MIN_BY_POS pos)).length := by
        rw [List.countP_eq_length]
        intro x hx
        rw [htake_pos x hx, hc]
        exact beq_self_eq_true _
      rw [hall1, List.length_take, List.length_map]
      rw [Nat.min_comm]
    · rw [if_neg hc]
      have hzero : ((bucket.map (·.1)).take (MIN_BY_POS pos)).countP
          (fun pid => groupPos positions pid == c) = 0 := by
        rw [List.countP_eq_zero]
        intro x hx
        rw [htake_pos x hx]
        simp only [beq_iff_eq]
        exact fun he => hc he.symm
      rw [hzero]
      omega

theorem filter_not_take_contains (l : List (ℤ × ℚ)) (n : ℕ)
    (hnd : (l.map Prod.fst).Nodup) :
    l.filter (fun p => !((l.map Prod.fst).take n).contains p.1) = l.drop n := by
  have h1 : (l.take n).filter
      (fun p => !((l.map Prod.fst).take n).contains p.1) = [] := by
    rw [List.filter_eq_nil_iff]
    intro p hp
    have : p.1 ∈ (l.map Prod.fst).take n := by
      rw [← List.map_take]
      exact List.mem_map_of_mem _ hp
    simpa using this
  have h2 : (l.drop n).filter
      (fun p => !((l.map Prod.fst).take n).contains p.1) = l.drop n := by
    rw [List.filter_eq_self]
    intro p hp
    have hdropm : p.1 ∈ (l.map Prod.fst).drop n := by
      rw [← List.map_drop]
      exact List.mem_map_of_mem _ hp
    have hnot : p.1 ∉ (l.map Prod.fst).take n := by
      intro hmem
      rw [← List.take_append_drop n (l.map Prod.fst), List.nodup_append] at hnd
      exact hnd.2.2 hmem hdropm
    simpa using hnot
  have hsplit : l.filter (fun p => !((l.map Prod.fst).take n).contains p.1) =
      (l.take n ++ l.drop n).filter
        (fun p => !((l.map Prod.fst).take n).contains p.1) := by
    rw [List.take_append_drop]
  rw [hsplit, List.filter_append, h1, h2, List.nil_append]

/-- A concrete 15-player squad for evaluating `choose_starting_xi`: ids 1-2
goalkeepers, 3-7 defenders, 8-12 midfielders, 13-15 forwards, all EPD 0. -/
def xiEp15 : List (ℤ × ℚ) :=
  [(1, 0), (2, 0), (3, 0), (4, 0), (5, 0), (6, 0), (7, 0), (8, 0), (9, 0),
   (10, 0), (11, 0), (12, 0), (13, 0), (14, 0), (15, 0)]

/-- The position map of the concrete squad `xiEp15`. -/
def xiPos15 : ℤ → Option String := fun pid =>
  if 1 ≤ pid ∧ pid ≤ 2 then some posGK
  else if 3 ≤ pid ∧ pid ≤ 7 then some posDEF
  else if 8 ≤ pid ∧ pid ≤ 12 then some posMID
  else if 13 ≤ pid ∧ pid ≤ 15 then some posFWD
  else none

/-- Claim C2: for every valid 15-player squad (distinct ids, positions
mapping 2 goalkeepers, 5 defenders, 5 midfielders and 3 forwards),
`choose_starting_xi` returns a starting list of exactly 11 distinct ids
with exactly one goalkeeper, 3–5 defenders, 2–5 midfielders and 1–3
forwards. -/
theorem C2_choose_starting_xi (ep : List (ℤ × ℚ)) (positions : ℤ → Option String)
    (hnd : (ep.map Prod.fst).Nodup)
    (hGK : (ep.map Prod.fst).countP (fun pid => positions pid == some posGK) = 2)
    (hDF : (ep.map Prod.fst).countP (fun pid => positions pid == some posDEF) = 5)
    (hMD : (ep.map Prod.fst).countP (fun pid => positions pid == some posMID) = 5)
    (hFW : (ep.map Prod.fst).countP (fun pid => positions pid == some posFWD) = 3)
    (hall : ∀ pid ∈ ep.map Prod.fst, positions pid = some posGK ∨
      positions pid = some posDEF ∨ positions pid = some posMID ∨
      positions pid = some posFWD) :
    (choose_starting_xi ep positions).1.length = 11 ∧
    (choose_starting_xi ep positions).1.Nodup ∧
    (choose_starting_xi ep positions).1.countP
      (fun pid => positions pid == some posGK) = 1 ∧
    (3 ≤ (choose_starting_xi ep positions).1.countP
        (fun pid => positions pid == some posDEF) ∧
      (choose_starting_xi ep positions).1.countP
        (fun pid => positions pid == some posDEF) ≤ 5) ∧
    (2 ≤ (choose_starting_xi ep positions).1.countP
        (fun pid => positions pid == some posMID) ∧
      (choose_starting_xi ep positions).1.countP
        (fun pid => positions pid == some posMID) ≤ 5) ∧
    (1 ≤ (choose_starting_xi ep positions).1.countP
        (fun pid => positions pid == some posFWD) ∧
      (choose_starting_xi ep positions).1.countP
        (fun pid => positions pid == some posFWD) ≤ 3) := by
  have hbridge : ∀ c : String,
      ep.countP (fun p => groupPos positions p.1 == c) =
        (ep.map Prod.fst).countP (fun pid => positions pid == some c) := by
    intro c
    rw [List.countP_map]
    refine List.countP_congr ?_
    intro p hp
    rcases hall p.1 (List.mem_map_of_mem _ hp) with hd | hd | hd | hd <;>
      simp [Function.comp, groupPos, hd]
  have lGK : (bucketOf ep positions posGK).length = 2 := by
    rw [bucket_len, hbridge, hGK]
  have lDF : (bucketOf ep positions posDEF).length = 5 := by
    rw [bucket_len, hbridge, hDF]
  have lMD : (bucketOf ep positions posMID).length = 5 := by
    rw [bucket_len, hbridge, hMD]
  have lFW : (bucketOf ep positions posFWD).length = 3 := by
    rw [bucket_len, hbridge, hFW]
  obtain ⟨g, gt, hg⟩ : ∃ g gt, bucketOf ep positions posGK = g :: gt := by
    cases hb : bucketOf ep positions posGK with
    | nil => rw [hb] at lGK; simp at lGK
    | cons g gt => exact ⟨g, gt, rfl⟩
  have hgpos : groupPos positions g.1 = posGK :=
    ((bucket_mem ep positions posGK g).mp (by
      rw [hg]; exact List.mem_cons_self _ _)).2
  have hst1 : (xiStage1 ep positions).1 = [g.1] := by
    unfold xiStage1
    rw [hg]
  have hst1c : (xiStage1 ep positions).2 = fun c => if c = posGK then 1 else 0 := by
    unfold xiStage1
    rw [hg]
    rfl
  have hDposb : ∀ p ∈ bucketOf ep positions posDEF,
      groupPos positions p.1 = posDEF :=
    fun p hp => ((bucket_mem ep positions posDEF p).mp hp).2
  have hMposb : ∀ p ∈ bucketOf ep positions posMID,
      groupPos positions p.1 = posMID :=
    fun p hp => ((bucket_mem ep positions posMID p).mp hp).2
  have hFposb : ∀ p ∈ bucketOf ep positions posFWD,
      groupPos positions p.1 = posFWD :=
    fun p hp => ((bucket_mem ep positions posFWD p).mp hp).2
  have hcnt1 : ∀ c, (xiStage1 ep positions).2 c =
      (xiStage1 ep positions).1.countP
        (fun pid => groupPos positions pid == c) := by
    intro c
    rw [hst1, hst1c]
    dsimp only
    by_cases hc : c = posGK
    · subst hc
      have hpe : ((fun pid => groupPos positions pid == posGK) g.1) = true := by
        simp [hgpos]
      simp [List.countP_cons, hpe]
    · rw [if_neg hc]
      have hne : ((fun pid => groupPos positions pid == c) g.1) = false := by
        simp only [hgpos, beq_eq_false_iff_ne, ne_eq]
        intro he
        exact hc he.symm
      simp [List.countP_cons, hne]
  have hdisD : ∀ p ∈ bucketOf ep positions posDEF,
      p.1 ∉ (xiStage1 ep positions).1 := by
    intro p hp h
    rw [hst1, List.mem_singleton] at h
    have hpd := hDposb p hp
    rw [h, hgpos] at hpd
    exact absurd hpd (by decide)
  have hs2 := stageB_spec (xiStage1 ep positions).1 (xiStage1 ep positions).2
    (bucketOf ep positions posDEF) positions posDEF hcnt1 hDposb hdisD
    (by rw [lDF]; decide)
    (bucket_fst_nodup ep positions posDEF hnd)
    (by rw [hst1]; exact List.nodup_singleton _)
  set s2 := stageB (xiStage1 ep positions).1 (xiStage1 ep positions).2
    (bucketOf ep positions posDEF) posDEF with hs2def
  have hminD : MIN_BY_POS posDEF = 3 := by decide
  have htakeD : ∀ x ∈ ((bucketOf ep positions posDEF).map (·.1)).take
      (MIN_BY_POS posDEF), groupPos positions x = posDEF := by
    intro x hx
    rcases List.mem_map.mp (List.mem_of_mem_take hx) with ⟨p, hp, hpe⟩
    rw [← hpe]
    exact hDposb p hp
  have hlen2 : s2.1.length = 4 := by
    rw [hs2.2.1, hst1, hminD]
    rfl
  have hdisM : ∀ p ∈ bucketOf ep positions posMID, p.1 ∉ s2.1 := by
    intro p hp h
    rw [hs2.1, hst1] at h
    rcases List.mem_append.mp h with h | h
    · rw [List.mem_singleton] at h
      have hpd := hMposb p hp
      rw [h, hgpos] at hpd
      exact absurd hpd (by decide)
    · have hpd := hMposb p hp
      rw [htakeD p.1 h] at hpd
      exact absurd hpd (by decide)
  have hs3 := stageB_spec s2.1 s2.2 (bucketOf ep positions posMID) positions
    posMID hs2.2.2.2 hMposb hdisM (by rw [lMD]; decide)
    (bucket_fst_nodup ep positions posMID hnd) hs2.2.2.1
  set s3 := stageB s2.1 s2.2 (bucketOf ep positions posMID) posMID with hs3def
  have hminM : MIN_BY_POS posMID = 2 := by decide
  have htakeM : ∀ x ∈ ((bucketOf ep positions posMID).map (·.1)).take
      (MIN_BY_POS posMID), groupPos positions x = posMID := by
    intro x hx
    rcases List.mem_map.mp (List.mem_of_mem_take hx) with ⟨p, hp, hpe⟩
    rw [← hpe]
    exact hMposb p hp
  have hlen3 : s3.1.length = 6 := by
    rw [hs3.2.1, hlen2, hminM]
  have hdisF : ∀ p ∈ bucketOf ep positions posFWD, p.1 ∉ s3.1 := by
    intro p hp h
    rw [hs3.1] at h
    rcases List.mem_append.mp h with h | h
    · rw [hs2.1, hst1] at h
      rcases List.mem_append.mp h with h | h
      · rw [List.mem_singleton] at h
        have hpd := hFposb p hp
        rw [h, hgpos] at hpd
        exact absurd hpd (by decide)
      · have hpd := hFposb p hp
        rw [htakeD p.1 h] at hpd
        exact absurd hpd (by decide)
    · have hpd := hFposb p hp
      rw [htakeM p.1 h] at hpd
      exact absurd hpd (by decide)
  have hs4 := stageB_spec s3.1 s3.2 (bucketOf ep positions posFWD) positions
    posFWD hs3.2.2.2 hFposb hdisF (by rw [lFW]; decide)
    (bucket_fst_nodup ep positions posFWD hnd) hs3.2.2.1
  have hx4 : xiStage4 ep positions =
      stageB s3.1 s3.2 (bucketOf ep positions posFWD) posFWD := rfl
  have hminF : MIN_BY_POS posFWD = 1 := by decide
  have htakeF : ∀ x ∈ ((bucketOf ep positions posFWD).map (·.1)).take
      (MIN_BY_POS posFWD), groupPos positions x = posFWD := by
    intro x hx
    rcases List.mem_map.mp (List.mem_of_mem_take hx) with ⟨p, hp, hpe⟩
    rw [← hpe]
    exact hFposb p hp
  have hlen4 : (xiStage4 ep positions).1.length = 7 := by
    rw [hx4, hs4.2.1, hlen3, hminF]
  -- groupPos of every selected id is one of the four codes
  have hs4codes : ∀ x ∈ (xiStage4 ep positions).1,
      groupPos positions x = posGK ∨ groupPos positions x = posDEF ∨
      groupPos positions x = posMID ∨ groupPos positions x = posFWD := by
    intro x hx
    rw [hx4, hs4.1] at hx
    rcases List.mem_append.mp hx with hx | hx
    · rw [hs3.1] at hx
      rcases List.mem_append.mp hx with hx | hx
      · rw [hs2.1, hst1] at hx
        rcases List.mem_append.mp hx with hx | hx
        · rw [List.mem_singleton] at hx
          rw [hx]
          exact Or.inl hgpos
        · exact Or.inr (Or.inl (htakeD x hx))
      · exact Or.inr (Or.inr (Or.inl (htakeM x hx)))
    · exact Or.inr (Or.inr (Or.inr (htakeF x hx)))
  have hs4GK : (xiStage4 ep positions).1.countP
      (fun pid => groupPos positions pid == posGK) = 1 := by
    rw [hx4, hs4.1, hs3.1, hs2.1, hst1]
    rw [List.countP_append, List.countP_append, List.countP_append]
    have c1 : List.countP (fun pid => groupPos positions pid == posGK) [g.1] = 1 := by
      rw [List.countP_cons, List.countP_nil, hgpos]
      simp
    have hzero : ∀ (l : List ℤ) (pos : String),
        (∀ x ∈ l, groupPos positions x = pos) → pos ≠ posGK →
        List.countP (fun pid => groupPos positions pid == posGK) l = 0 := by
      intro l pos hl hne
      rw [List.countP_eq_zero]
      intro x hx
      rw [hl x hx]
      simp only [beq_iff_eq]
      exact hne
    rw [c1, hzero _ _ htakeD (by decide), hzero _ _ htakeM (by decide),
      hzero _ _ htakeF (by decide)]
  have hgsing : ∀ x ∈ [g.1], groupPos positions x = posGK := by
    intro x hx
    rw [List.mem_singleton] at hx
    rw [hx]
    exact hgpos
  have hzeroC : ∀ (l : List ℤ) (pos c : String),
      (∀ x ∈ l, groupPos positions x = pos) → pos ≠ c →
      List.countP (fun pid => groupPos positions pid == c) l = 0 := by
    intro l pos c hl hne
    rw [List.countP_eq_zero]
    intro x hx
    rw [hl x hx]
    simp only [beq_iff_eq]
    exact hne
  have hfullC : ∀ (l : List ℤ) (c : String),
      (∀ x ∈ l, groupPos positions x = c) →
      List.countP (fun pid => groupPos positions pid == c) l = l.length := by
    intro l c hl
    rw [List.countP_eq_length]
    intro x hx
    rw [hl x hx]
    exact beq_self_eq_true _
  have lenTakeD : (((bucketOf ep positions posDEF).map (·.1)).take
      (MIN_BY_POS posDEF)).length = 3 := by
    rw [List.length_take, List.length_map, lDF, hminD]
    decide
  have lenTakeM : (((bucketOf ep positions posMID).map (·.1)).take
      (MIN_BY_POS posMID)).length = 2 := by
    rw [List.length_take, List.length_map, lMD, hminM]
    decide
  have lenTakeF : (((bucketOf ep positions posFWD).map (·.1)).take
      (MIN_BY_POS posFWD)).length = 1 := by
    rw [List.length_take, List.length_map, lFW, hminF]
    decide
  have hs4DF : (xiStage4 ep positions).1.countP
      (fun pid => groupPos positions pid == posDEF) = 3 := by
    rw [hx4, hs4.1, hs3.1, hs2.1, hst1]
    rw [List.countP_append, List.countP_append, List.countP_append]
    rw [hzeroC _ _ _ hgsing (by decide), hfullC _ _ htakeD,
      hzeroC _ _ _ htakeM (by decide), hzeroC _ _ _ htakeF (by decide), lenTakeD]
  have hs4MD : (xiStage4 ep positions).1.countP
      (fun pid => groupPos positions pid == posMID) = 2 := by
    rw [hx4, hs4.1, hs3.1, hs2.1, hst1]
    rw [List.countP_append, List.countP_append, List.countP_append]
    rw [hzeroC _ _ _ hgsing (by decide), hzeroC _ _ _ htakeD (by decide),
      hfullC _ _ htakeM, hzeroC _ _ _ htakeF (by decide), lenTakeM]
  have hs4FW : (xiStage4 ep positions).1.countP
      (fun pid => groupPos positions pid == posFWD) = 1 := by
    rw [hx4, hs4.1, hs3.1, hs2.1, hst1]
    rw [List.countP_append, List.countP_append, List.countP_append]
    rw [hzeroC _ _ _ hgsing (by decide), hzeroC _ _ _ htakeD (by decide),
      hzeroC _ _ _ htakeM (by decide), hfullC _ _ htakeF, lenTakeF]
  have hs4nd : (xiStage4 ep positions).1.Nodup := by
    rw [hx4]
    exact hs4.2.2.1
  have hcnt4 : ∀ c, (xiStage4 ep positions).2 c =
      (xiStage4 ep positions).1.countP
        (fun pid => groupPos positions pid == c) := by
    rw [hx4]
    exact hs4.2.2.2
  have hc4GK : (xiStage4 ep positions).2 posGK = 1 := by
    rw [hcnt4, hs4GK]
  have hc4DF : (xiStage4 ep positions).2 posDEF = 3 := by
    rw [hcnt4, hs4DF]
  have hc4MD : (xiStage4 ep positions).2 posMID = 2 := by
    rw [hcnt4, hs4MD]
  have hc4FW : (xiStage4 ep positions).2 posFWD = 1 := by
    rw [hcnt4, hs4FW]
  -- the phase-C candidate pool is exactly the tails of the outfield buckets
  have hfD : (bucketOf ep positions posDEF).filter
      (fun p => !(xiStage4 ep positions).1.contains p.1) =
      (bucketOf ep positions posDEF).drop 3 := by
    have hcong : ∀ p ∈ bucketOf ep positions posDEF,
        (!(xiStage4 ep positions).1.contains p.1) =
        (!(((bucketOf ep positions posDEF).map Prod.fst).take 3).contains p.1) := by
      intro p hp
      have hpd := hDposb p hp
      have hiff : p.1 ∈ (xiStage4 ep positions).1 ↔
          p.1 ∈ ((bucketOf ep positions posDEF).map Prod.fst).take 3 := by
        constructor
        · intro hm
          rw [hx4, hs4.1, hs3.1, hs2.1, hst1] at hm
          rcases List.mem_append.mp hm with hm | hm
          · rcases List.mem_append.mp hm with hm | hm
            · rcases List.mem_append.mp hm with hm | hm
              · rw [List.mem_singleton] at hm
                rw [hm, hgpos] at hpd
                exact absurd hpd (by decide)
              · rw [hminD] at hm
                exact hm
            · have hq := htakeM p.1 hm
              rw [hpd] at hq
              exact absurd hq (by decide)
          · have hq := htakeF p.1 hm
            rw [hpd] at hq
            exact absurd hq (by decide)
        · intro hm
          rw [hx4, hs4.1, hs3.1, hs2.1, hst1]
          refine List.mem_append.mpr (Or.inl (List.mem_append.mpr
            (Or.inl (List.mem_append.mpr (Or.inr ?_)))))
          rw [hminD]
          exact hm
      by_cases hmem : p.1 ∈ (xiStage4 ep positions).1
      · have hm2 := hiff.mp hmem
        simp [hmem, hm2]
      · have hm2 : p.1 ∉ ((bucketOf ep positions posDEF).map Prod.fst).take 3 :=
          fun h => hmem (hiff.mpr h)
        simp [hmem, hm2]
    rw [List.filter_congr hcong,
      filter_not_take_contains _ _ (bucket_fst_nodup ep positions posDEF hnd)]
  have hfM : (bucketOf ep positions posMID).filter
      (fun p => !(xiStage4 ep positions).1.contains p.1) =
      (bucketOf ep positions posMID).drop 2 := by
    have hcong : ∀ p ∈ bucketOf ep positions posMID,
        (!(xiStage4 ep positions).1.contains p.1) =
        (!(((bucketOf ep positions posMID).map Prod.fst).take 2).contains p.1) := by
      intro p hp
      have hpd := hMposb p hp
      have hiff : p.1 ∈ (xiStage4 ep positions).1 ↔
          p.1 ∈ ((bucketOf ep positions posMID).map Prod.fst).take 2 := by
        constructor
        · intro hm
          rw [hx4, hs4.1, hs3.1, hs2.1, hst1] at hm
          rcases List.mem_append.mp hm with hm | hm
          · rcases List.mem_append.mp hm with hm | hm
            · rcases List.mem_append.mp hm with hm | hm
              · rw [List.mem_singleton] at hm
                rw [hm, hgpos] at hpd
                exact absurd hpd (by decide)
              · have hq := htakeD p.1 hm
                rw [hpd] at hq
                exact absurd hq (by decide)
            · rw [hminM] at hm
              exact hm
          · have hq := htakeF p.1 hm
            rw [hpd] at hq
            exact absurd hq (by decide)
        · intro hm
          rw [hx4, hs4.1, hs3.1, hs2.1, hst1]
          refine List.mem_append.mpr (Or.inl (List.mem_append.mpr (Or.inr ?_)))
          rw [hminM]
          exact hm
      by_cases hmem : p.1 ∈ (xiStage4 ep positions).1
      · have hm2 := hiff.mp hmem
        simp [hmem, hm2]
      · have hm2 : p.1 ∉ ((bucketOf ep positions posMID).map Prod.fst).take 2 :=
          fun h => hmem (hiff.mpr h)
        simp [hmem, hm2]
    rw [List.filter_congr hcong,
      filter_not_take_contains _ _ (bucket_fst_nodup ep positions posMID hnd)]
  have hfF : (bucketOf ep positions posFWD).filter
      (fun p => !(xiStage4 ep positions).1.contains p.1) =
      (bucketOf ep positions posFWD).drop 1 := by
    have hcong : ∀ p ∈ bucketOf ep positions posFWD,
        (!(xiStage4 ep positions).1.contains p.1) =
        (!(((bucketOf ep positions posFWD).map Prod.fst).take 1).contains p.1) := by
      intro p hp
      have hpd := hFposb p hp
      have hiff : p.1 ∈ (xiStage4 ep positions).1 ↔
          p.1 ∈ ((bucketOf ep positions posFWD).map Prod.fst).take 1 := by
        constructor
        · intro hm
          rw [hx4, hs4.1, hs3.1, hs2.1, hst1] at hm
          rcases List.mem_append.mp hm with hm | hm
          · rcases List.mem_append.mp hm with hm | hm
            · rcases List.mem_append.mp hm with hm | hm
              · rw [List.mem_singleton] at hm
                rw [hm, hgpos] at hpd
                exact absurd hpd (by decide)
              · have hq := htakeD p.1 hm
                rw [hpd] at hq
                exact absurd hq (by decide)
            · have hq := htakeM p.1 hm
              rw [hpd] at hq
              exact absurd hq (by decide)
          · rw [hminF] at hm
            exact hm
        · intro hm
          rw [hx4, hs4.1, hs3.1, hs2.1, hst1]
          refine List.mem_append.mpr (Or.inr ?_)
          rw [hminF]
          exact hm
      by_cases hmem : p.1 ∈ (xiStage4 ep positions).1
      · have hm2 := hiff.mp hmem
        simp [hmem, hm2]
      · have hm2 : p.1 ∉ ((bucketOf ep positions posFWD).map Prod.fst).take 1 :=
          fun h => hmem (hiff.mpr h)
        simp [hmem, hm2]
    rw [List.filter_congr hcong,
      filter_not_take_contains _ _ (bucket_fst_nodup ep positions posFWD hnd)]
  have hcands0 : ((bucketOf ep positions posDEF ++ bucketOf ep positions posMID ++
      bucketOf ep positions posFWD).filter
        (fun p => !(xiStage4 ep positions).1.contains p.1)) =
      (bucketOf ep positions posDEF).drop 3 ++
        (bucketOf ep positions posMID).drop 2 ++
        (bucketOf ep positions posFWD).drop 1 := by
    rw [List.filter_append, List.filter_append, hfD, hfM, hfF]
  have hcperm : (xiCandidates ep positions).Perm
      ((bucketOf ep positions posDEF).drop 3 ++
        (bucketOf ep positions posMID).drop 2 ++
        (bucketOf ep positions posFWD).drop 1) := by
    unfold xiCandidates
    refine (sortByKeyDesc_perm _ _).trans ?_
    rw [hcands0]
  have hDdrop : ∀ p ∈ (bucketOf ep positions posDEF).drop 3,
      groupPos positions p.1 = posDEF :=
    fun p hp => hDposb p (List.mem_of_mem_drop hp)
  have hMdrop : ∀ p ∈ (bucketOf ep positions posMID).drop 2,
      groupPos positions p.1 = posMID :=
    fun p hp => hMposb p (List.mem_of_mem_drop hp)
  have hFdrop : ∀ p ∈ (bucketOf ep positions posFWD).drop 1,
      groupPos positions p.1 = posFWD :=
    fun p hp => hFposb p (List.mem_of_mem_drop hp)
  have lDd : ((bucketOf ep positions posDEF).drop 3).length = 2 := by
    rw [List.length_drop, lDF]
  have lMd : ((bucketOf ep positions posMID).drop 2).length = 3 := by
    rw [List.length_drop, lMD]
  have lFd : ((bucketOf ep positions posFWD).drop 1).length = 2 := by
    rw [List.length_drop, lFW]
  have hzeroP : ∀ (l : List (ℤ × ℚ)) (pos c : String),
      (∀ p ∈ l, groupPos positions p.1 = pos) → pos ≠ c →
      l.countP (fun p => groupPos positions p.1 == c) = 0 := by
    intro l pos c hl hne
    rw [List.countP_eq_zero]
    intro p hp
    rw [hl p hp]
    simp only [beq_iff_eq]
    exact hne
  have hfullP : ∀ (l : List (ℤ × ℚ)) (c : String),
      (∀ p ∈ l, groupPos positions p.1 = c) →
      l.countP (fun p => groupPos positions p.1 == c) = l.length := by
    intro l c hl
    rw [List.countP_eq_length]
    intro p hp
    rw [hl p hp]
    exact beq_self_eq_true _
  have hccount : ∀ c, (xiCandidates ep positions).countP
      (fun p => groupPos positions p.1 == c) =
      ((bucketOf ep positions posDEF).drop 3).countP
        (fun p => groupPos positions p.1 == c) +
      ((bucketOf ep positions posMID).drop 2).countP
        (fun p => groupPos positions p.1 == c) +
      ((bucketOf ep positions posFWD).drop 1).countP
        (fun p => groupPos positions p.1 == c) := by
    intro c
    rw [hcperm.countP_eq, List.countP_append, List.countP_append]
  have hcGK : (xiCandidates ep positions).countP
      (fun p => groupPos positions p.1 == posGK) = 0 := by
    rw [hccount, hzeroP _ _ _ hDdrop (by decide), hzeroP _ _ _ hMdrop (by decide),
      hzeroP _ _ _ hFdrop (by decide)]
  have hcDF : (xiCandidates ep positions).countP
      (fun p => groupPos positions p.1 == posDEF) = 2 := by
    rw [hccount, hfullP _ _ hDdrop, hzeroP _ _ _ hMdrop (by decide),
      hzeroP _ _ _ hFdrop (by decide), lDd]
  have hcMD : (xiCandidates ep positions).countP
      (fun p => groupPos positions p.1 == posMID) = 3 := by
    rw [hccount, hzeroP _ _ _ hDdrop (by decide), hfullP _ _ hMdrop,
      hzeroP _ _ _ hFdrop (by decide), lMd]
  have hcFW : (xiCandidates ep positions).countP
      (fun p => groupPos positions p.1 == posFWD) = 2 := by
    rw [hccount, hzeroP _ _ _ hDdrop (by decide), hzeroP _ _ _ hMdrop (by decide),
      hfullP _ _ hFdrop, lFd]
  have hclen : (xiCandidates ep positions).length = 7 := by
    rw [hcperm.length_eq, List.length_append, List.length_append, lDd, lMd, lFd]
  have hmapD : (((bucketOf ep positions posDEF).drop 3).map Prod.fst).Nodup := by
    rw [List.map_drop]
    exact (List.drop_sublist _ _).nodup (bucket_fst_nodup ep positions posDEF hnd)
  have hmapM : (((bucketOf ep positions posMID).drop 2).map Prod.fst).Nodup := by
    rw [List.map_drop]
    exact (List.drop_sublist _ _).nodup (bucket_fst_nodup ep positions posMID hnd)
  have hmapF : (((bucketOf ep positions posFWD).drop 1).map Prod.fst).Nodup := by
    rw [List.map_drop]
    exact (List.drop_sublist _ _).nodup (bucket_fst_nodup ep positions posFWD hnd)
  have hmD : ∀ a ∈ ((bucketOf ep positions posDEF).drop 3).map Prod.fst,
      groupPos positions a = posDEF := by
    intro a ha
    rcases List.mem_map.mp ha with ⟨p, hp, he⟩
    rw [← he]
    exact hDdrop p hp
  have hmM : ∀ a ∈ ((bucketOf ep positions posMID).drop 2).map Prod.fst,
      groupPos positions a = posMID := by
    intro a ha
    rcases List.mem_map.mp ha with ⟨p, hp, he⟩
    rw [← he]
    exact hMdrop p hp
  have hmF : ∀ a ∈ ((bucketOf ep positions posFWD).drop 1).map Prod.fst,
      groupPos positions a = posFWD := by
    intro a ha
    rcases List.mem_map.mp ha with ⟨p, hp, he⟩
    rw [← he]
    exact hFdrop p hp
  have hcnd : ((xiCandidates ep positions).map Prod.fst).Nodup := by
    rw [(hcperm.map Prod.fst).nodup_iff]
    rw [List.map_append, List.map_append, List.nodup_append]
    refine ⟨?_, hmapF, ?_⟩
    · rw [List.nodup_append]
      refine ⟨hmapD, hmapM, ?_⟩
      intro a ha hb
      have h2 := hmM a hb
      rw [hmD a ha] at h2
      exact absurd h2 (by decide)
    · intro a ha hb
      have h2 := hmF a hb
      rcases List.mem_append.mp ha with ha | ha
      · rw [hmD a ha] at h2
        exact absurd h2 (by decide)
      · rw [hmM a ha] at h2
        exact absurd h2 (by decide)
  have hdisjC : ∀ p ∈ xiCandidates ep positions,
      p.1 ∉ (xiStage4 ep positions).1 := by
    intro p hp
    unfold xiCandidates at hp
    rw [mem_sortByKeyDesc, List.mem_filter] at hp
    simpa using hp.2
  have hcandmem : ∀ p ∈ xiCandidates ep positions, p ∈ ep := by
    intro p hp
    unfold xiCandidates at hp
    rw [mem_sortByKeyDesc, List.mem_filter] at hp
    rcases List.mem_append.mp hp.1 with h | h
    · rcases List.mem_append.mp h with h | h
      · exact ((bucket_mem ep positions posDEF p).mp h).1
      · exact ((bucket_mem ep positions posMID p).mp h).1
    · exact ((bucket_mem ep positions posFWD p).mp h).1
  have hgmem : g ∈ ep :=
    ((bucket_mem ep positions posGK g).mp (by
      rw [hg]; exact List.mem_cons_self _ _)).1
  have hs4mem : ∀ x ∈ (xiStage4 ep positions).1, x ∈ ep.map Prod.fst := by
    intro x hx
    rw [hx4, hs4.1, hs3.1, hs2.1, hst1] at hx
    rcases List.mem_append.mp hx with hx | hx
    · rcases List.mem_append.mp hx with hx | hx
      · rcases List.mem_append.mp hx with hx | hx
        · rw [List.mem_singleton] at hx
          rw [hx]
          exact List.mem_map_of_mem _ hgmem
        · rcases List.mem_map.mp (List.mem_of_mem_take hx) with ⟨p, hp, he⟩
          rw [← he]
          exact List.mem_map_of_mem _ ((bucket_mem ep positions posDEF p).mp hp).1
      · rcases List.mem_map.mp (List.mem_of_mem_take hx) with ⟨p, hp, he⟩
        rw [← he]
        exact List.mem_map_of_mem _ ((bucket_mem ep positions posMID p).mp hp).1
    · rcases List.mem_map.mp (List.mem_of_mem_take hx) with ⟨p, hp, he⟩
      rw [← he]
      exact List.mem_map_of_mem _ ((bucket_mem ep positions posFWD p).mp hp).1
  have hcap : ∀ c, (xiStage4 ep positions).2 c +
      (xiCandidates ep positions).countP
        (fun p => groupPos positions p.1 == c) ≤ MAX_BY_POS c := by
    intro c
    by_cases h1 : c = posGK
    · subst h1
      rw [hc4GK, hcGK]
      decide
    · by_cases h2 : c = posDEF
      · subst h2
        rw [hc4DF, hcDF]
        decide
      · by_cases h3 : c = posMID
        · subst h3
          rw [hc4MD, hcMD]
          decide
        · by_cases h4 : c = posFWD
          · subst h4
            rw [hc4FW, hcFW]
            decide
          · have hs40 : (xiStage4 ep positions).2 c = 0 := by
              rw [hcnt4, List.countP_eq_zero]
              intro x hx
              rcases hs4codes x hx with hd | hd | hd | hd
              · rw [hd]
                simp only [beq_iff_eq]
                exact fun he => h1 he.symm
              · rw [hd]
                simp only [beq_iff_eq]
                exact fun he => h2 he.symm
              · rw [hd]
                simp only [beq_iff_eq]
                exact fun he => h3 he.symm
              · rw [hd]
                simp only [beq_iff_eq]
                exact fun he => h4 he.symm
            have hcand0 : (xiCandidates ep positions).countP
                (fun p => groupPos positions p.1 == c) = 0 := by
              rw [hccount, hzeroP _ _ _ hDdrop (fun he => h2 he.symm),
                hzeroP _ _ _ hMdrop (fun he => h3 he.symm),
                hzeroP _ _ _ hFdrop (fun he => h4 he.symm)]
            rw [hs40, hcand0]
            exact Nat.zero_le _
  have hlen11 : (xiStage4 ep positions).1.length ≤ 11 := by
    rw [hlen4]
    decide
  have hfill := fill_step_spec positions (xiCandidates ep positions)
    (xiStage4 ep positions).1 (xiStage4 ep positions).2 hcnt4 hcap hcnd hdisjC
    hs4nd hlen11
  have hmemall : ∀ x ∈ (fill_step positions (xiStage4 ep positions).1
      (xiStage4 ep positions).2 (xiCandidates ep positions)).1,
      x ∈ ep.map Prod.fst := by
    intro x hx
    rcases hfill.2.2.2.2.2 x hx with h | h
    · exact hs4mem x h
    · rcases List.mem_map.mp h with ⟨p, hp, he⟩
      rw [← he]
      exact List.mem_map_of_mem _ (hcandmem p hp)
  have hbeq : ∀ (d c : String), ((some d : Option String) == some c) = (d == c) := by
    intro d c
    by_cases h : d = c
    · rw [h, beq_self_eq_true, beq_self_eq_true]
    · rw [beq_eq_false_iff_ne.mpr (fun he => h (Option.some_inj.mp he)),
        beq_eq_false_iff_ne.mpr h]
  have hconv : ∀ c, (fill_step positions (xiStage4 ep positions).1
      (xiStage4 ep positions).2 (xiCandidates ep positions)).1.countP
        (fun pid => positions pid == some c) =
      (fill_step positions (xiStage4 ep positions).1
        (xiStage4 ep positions).2 (xiCandidates ep positions)).1.countP
          (fun pid => groupPos positions pid == c) := by
    intro c
    refine List.countP_congr ?_
    intro x hx
    rcases hall x (hmemall x hx) with hd | hd | hd | hd <;>
      simp only [groupPos, hd, Option.getD_some, hbeq]
  have hselr : (choose_starting_xi ep positions).1 =
      (fill_step positions (xiStage4 ep positions).1 (xiStage4 ep positions).2
        (xiCandidates ep positions)).1 := rfl
  refine ⟨?_, ?_, ?_, ⟨?_, ?_⟩, ⟨?_, ?_⟩, ⟨?_, ?_⟩⟩
  · rw [hselr, hfill.1, hlen4, hclen]
    decide
  · rw [hselr]
    exact hfill.2.1
  · rw [hselr, hconv posGK, ← hfill.2.2.1 posGK]
    refine le_antisymm (le_trans (hfill.2.2.2.2.1 posGK) (by decide)) ?_
    rw [← hc4GK]
    exact hfill.2.2.2.1 posGK
  · rw [hselr, hconv posDEF, ← hfill.2.2.1 posDEF, ← hc4DF]
    exact hfill.2.2.2.1 posDEF
  · rw [hselr, hconv posDEF, ← hfill.2.2.1 posDEF]
    exact le_trans (hfill.2.2.2.2.1 posDEF) (by decide)
  · rw [hselr, hconv posMID, ← hfill.2.2.1 posMID, ← hc4MD]
    exact hfill.2.2.2.1 posMID
  · rw [hselr, hconv posMID, ← hfill.2.2.1 posMID]
    exact le_trans (hfill.2.2.2.2.1 posMID) (by decide)
  · rw [hselr, hconv posFWD, ← hfill.2.2.1 posFWD, ← hc4FW]
    exact hfill.2.2.2.1 posFWD
  · rw [hselr, hconv posFWD, ← hfill.2.2.1 posFWD]
    exact le_trans (hfill.2.2.2.2.1 posFWD) (by decide)

/-- Witness for C2: the hypotheses hold and the theorem applies at the
concrete squad `xiEp15` with position map `xiPos15`. -/
theorem C2_choose_starting_xi_witness :
    (choose_starting_xi xiEp15 xiPos15).1.length = 11 ∧
    (choose_starting_xi xiEp15 xiPos15).1.Nodup ∧
    (choose_starting_xi xiEp15 xiPos15).1.countP
      (fun pid => xiPos15 pid == some posGK) = 1 ∧
    (3 ≤ (choose_starting_xi xiEp15 xiPos15).1.countP
        (fun pid => xiPos15 pid == some posDEF) ∧
      (choose_starting_xi xiEp15 xiPos15).1.countP
        (fun pid => xiPos15 pid == some posDEF) ≤ 5) ∧
    (2 ≤ (choose_starting_xi xiEp15 xiPos15).1.countP
        (fun pid => xiPos15 pid == some posMID) ∧
      (choose_starting_xi xiEp15 xiPos15).1.countP
        (fun pid => xiPos15 pid == some posMID) ≤ 5) ∧
    (1 ≤ (choose_starting_xi xiEp15 xiPos15).1.countP
        (fun pid => xiPos15 pid == some posFWD) ∧
      (choose_starting_xi xiEp15 xiPos15).1.countP
        (fun pid => xiPos15 pid == some posFWD) ≤ 3) :=
  C2_choose_starting_xi xiEp15 xiPos15 (by decide) (by decide) (by decide)
    (by decide) (by decide) (by decide)

theorem repairCurrent_two_gk (positions : ℤ → Option String) (epGet : ℤ → ℚ)
    (start bench : List ℤ) (k d w : ℤ) (rest : List ℤ)
    (hkd : sortByKeyDesc epGet (start.filter
      (fun pid => positions pid == some posGK)) = [k, d])
    (hdGK : positions d = some posGK)
    (hob : sortByKeyDesc epGet (bench.filter
      (fun pid => positions pid != some posGK)) = w :: rest)
    (hwbench : w ∈ bench)
    (hwst : w ∉ start.erase d)
    (hlen : (start.erase d).length < 11) :
    repairCurrent positions epGet start bench =
      (start.erase d ++ [w], bench.erase w ++ [d]) := by
  have h2 : (start.filter (fun pid => positions pid == some posGK)).length = 2 := by
    have h := congrArg List.length hkd
    rw [(sortByKeyDesc_perm epGet _).length_eq] at h
    exact h
  have hcond : 1 < (start.filter
      (fun pid => positions pid == some posGK)).length := by
    rw [h2]
    decide
  have hdf : [d].filter (fun pid => positions pid != some posGK) = [] := by
    simp [hdGK]
  simp only [repairCurrent]
  rw [if_pos hcond, hkd]
  simp only [List.tail_cons, List.foldl_cons, List.foldl_nil]
  rw [List.filter_append, hdf, List.append_nil, hob]
  have hfind : List.find? (fun pid => !(start.erase d).contains pid &&
      decide ((start.erase d).length < 11)) (w :: rest) = some w := by
    apply List.find?_cons_of_pos
    simp [hwst, hlen]
  rw [hfind]
  show (start.erase d ++ [w], (bench ++ [d]).erase w) = _
  rw [List.erase_append_left _ hwbench]

/-- Claim C7: when the picks mark exactly two goalkeepers as starters in an
11-player current XI (with distinct pick elements and at least one outfield
bench player), plan_gameweek repairs rather than rejects: the current start
keeps exactly one goalkeeper - the higher-EPD one of the sorted pair - the
demoted goalkeeper is appended to the current bench, and the highest-EPD
outfield bench player is promoted into the start. -/
theorem C7_two_gk_repair (inp : PlanInput)
    (hnd : (inp.picks.map Pick.element).Nodup)
    (hS : (currentStart0 inp.picks).length = 11)
    (hgks : ((currentStart0 inp.picks).filter
      (fun pid => positionsOf inp.picks inp.elements pid == some posGK)).length = 2)
    (hOB : (currentBench0 inp.picks).filter
      (fun pid => positionsOf inp.picks inp.elements pid != some posGK) ≠ []) :
    ∃ k d w rest,
      sortByKeyDesc (planEpGet inp) ((currentStart0 inp.picks).filter
        (fun pid => positionsOf inp.picks inp.elements pid == some posGK)) =
          [k, d] ∧
      sortByKeyDesc (planEpGet inp) ((currentBench0 inp.picks).filter
        (fun pid => positionsOf inp.picks inp.elements pid != some posGK)) =
          w :: rest ∧
      (planCurrent inp).1 = (currentStart0 inp.picks).erase d ++ [w] ∧
      (planCurrent inp).2 = (currentBench0 inp.picks).erase w ++ [d] ∧
      (planCurrent inp).1.countP
        (fun pid => positionsOf inp.picks inp.elements pid == some posGK) = 1 ∧
      planEpGet inp d ≤ planEpGet inp k ∧
      d ∈ (planCurrent inp).2 ∧
      (∀ x ∈ (currentBench0 inp.picks).filter
          (fun pid => positionsOf inp.picks inp.elements pid != some posGK),
        planEpGet inp x ≤ planEpGet inp w) := by
  have hslen : (sortByKeyDesc (planEpGet inp) ((currentStart0 inp.picks).filter
      (fun pid => positionsOf inp.picks inp.elements pid == some posGK))).length
      = 2 := by
    rw [(sortByKeyDesc_perm _ _).length_eq, hgks]
  obtain ⟨k, d, hkd⟩ := List.length_eq_two.mp hslen
  have hdm : d ∈ (currentStart0 inp.picks).filter
      (fun pid => positionsOf inp.picks inp.elements pid == some posGK) := by
    rw [← mem_sortByKeyDesc (planEpGet inp), hkd]
    simp
  have hdS : d ∈ currentStart0 inp.picks := (List.mem_filter.mp hdm).1
  have hdGK : positionsOf inp.picks inp.elements d = some posGK := by
    have h := (List.mem_filter.mp hdm).2
    exact beq_iff_eq.mp h
  -- start and bench ids are jointly the pick elements, hence Nodup/disjoint
  have hperm : (currentStart0 inp.picks ++ currentBench0 inp.picks).Perm
      (inp.picks.map Pick.element) := by
    unfold currentStart0 currentBench0
    rw [← List.map_append]
    refine List.Perm.map _ ?_
    have hbase := List.filter_append_perm
      (fun p : Pick => 0 < p.multiplier) inp.picks
    have hcong : inp.picks.filter (fun p => !decide (0 < p.multiplier)) =
        inp.picks.filter (fun p => p.multiplier ≤ 0) := by
      refine List.filter_congr ?_
      intro q hq
      by_cases h : 0 < q.multiplier
      · have h2 : ¬ q.multiplier ≤ 0 := not_le.mpr h
        simp [h, h2]
      · have h2 : q.multiplier ≤ 0 := not_lt.mp h
        simp [h, h2]
    rw [hcong] at hbase
    exact hbase
  have hSB : (currentStart0 inp.picks ++ currentBench0 inp.picks).Nodup :=
    hperm.nodup_iff.mpr hnd
  rw [List.nodup_append] at hSB
  have hdisj := hSB.2.2
  -- the outfield bench pool, sorted, is nonempty
  obtain ⟨w, rest, hob⟩ : ∃ w rest, sortByKeyDesc (planEpGet inp)
      ((currentBench0 inp.picks).filter
        (fun pid => positionsOf inp.picks inp.elements pid != some posGK)) =
      w :: rest := by
    cases hx : sortByKeyDesc (planEpGet inp)
        ((currentBench0 inp.picks).filter
          (fun pid => positionsOf inp.picks inp.elements pid != some posGK)) with
    | nil =>
      have h := congrArg List.length hx
      rw [(sortByKeyDesc_perm _ _).length_eq] at h
      exact absurd (List.length_eq_zero.mp h) hOB
    | cons w rest => exact ⟨w, rest, rfl⟩
  have hwm : w ∈ (currentBench0 inp.picks).filter
      (fun pid => positionsOf inp.picks inp.elements pid != some posGK) := by
    rw [← mem_sortByKeyDesc (planEpGet inp), hob]
    exact List.mem_cons_self _ _
  have hwbench : w ∈ currentBench0 inp.picks := (List.mem_filter.mp hwm).1
  have hwne : positionsOf inp.picks inp.elements w ≠ some posGK := by
    have h := (List.mem_filter.mp hwm).2
    simpa using h
  have hwst : w ∉ (currentStart0 inp.picks).erase d := by
    intro h
    exact hdisj (List.mem_of_mem_erase h) hwbench
  have hlen : ((currentStart0 inp.picks).erase d).length < 11 := by
    rw [List.length_erase_of_mem hdS, hS]
    decide
  have heq : planCurrent inp =
      ((currentStart0 inp.picks).erase d ++ [w],
       (currentBench0 inp.picks).erase w ++ [d]) :=
    repairCurrent_two_gk (positionsOf inp.picks inp.elements) (planEpGet inp)
      (currentStart0 inp.picks) (currentBench0 inp.picks) k d w rest
      hkd hdGK hob hwbench hwst hlen
  refine ⟨k, d, w, rest, hkd, hob, by rw [heq], by rw [heq], ?_, ?_, ?_, ?_⟩
  · rw [heq]
    show ((currentStart0 inp.picks).erase d ++ [w]).countP _ = 1
    rw [List.countP_append]
    have hw0 : List.countP (fun pid =>
        positionsOf inp.picks inp.elements pid == some posGK) [w] = 0 := by
      simp [List.countP_cons, hwne]
    have hSd : List.countP (fun pid =>
        positionsOf inp.picks inp.elements pid == some posGK)
        ((currentStart0 inp.picks).erase d) = 1 := by
      have hperm2 : (currentStart0 inp.picks).Perm
          (d :: (currentStart0 inp.picks).erase d) := List.perm_cons_erase hdS
      have h := hperm2.countP_eq (fun pid =>
        positionsOf inp.picks inp.elements pid == some posGK)
      rw [List.countP_cons] at h
      have hdt : (positionsOf inp.picks inp.elements d == some posGK) = true := by
        simp [hdGK]
      rw [hdt] at h
      simp only [if_true] at h
      have hcS : List.countP (fun pid =>
          positionsOf inp.picks inp.elements pid == some posGK)
          (currentStart0 inp.picks) = 2 := by
        rw [List.countP_eq_length_filter, hgks]
      omega
    rw [hw0, hSd]
  · have hsorted := sortByKeyDesc_sorted (planEpGet inp)
      ((currentStart0 inp.picks).filter
        (fun pid => positionsOf inp.picks inp.elements pid == some posGK))
    rw [hkd] at hsorted
    exact (List.pairwise_cons.mp hsorted).1 d (by simp)
  · rw [heq]
    show d ∈ (currentBench0 inp.picks).erase w ++ [d]
    simp
  · intro x hx
    have hx2 : x ∈ w :: rest := by
      rw [← hob, mem_sortByKeyDesc]
      exact hx
    rcases List.mem_cons.mp hx2 with h | h
    · rw [h]
    · have hs := sortByKeyDesc_sorted (planEpGet inp)
        ((currentBench0 inp.picks).filter
          (fun pid => positionsOf inp.picks inp.elements pid != some posGK))
      rw [hob] at hs
      exact (List.pairwise_cons.mp hs).1 x h

/-- Witness for C7: at the concrete squad `planInput2` - both goalkeepers
marked as starters - the hypotheses hold and the repair theorem applies. -/
theorem C7_two_gk_repair_witness :
    ((planInput2.picks.map Pick.element).Nodup ∧
     (currentStart0 planInput2.picks).length = 11 ∧
     ((currentStart0 planInput2.picks).filter
       (fun pid => positionsOf planInput2.picks planInput2.elements pid ==
         some posGK)).length = 2 ∧
     (currentBench0 planInput2.picks).filter
       (fun pid => positionsOf planInput2.picks planInput2.elements pid !=
         some posGK) ≠ []) ∧
    (∃ k d w rest,
      sortByKeyDesc (planEpGet planInput2) ((currentStart0 planInput2.picks).filter
        (fun pid => positionsOf planInput2.picks planInput2.elements pid ==
          some posGK)) = [k, d] ∧
      sortByKeyDesc (planEpGet planInput2) ((currentBench0 planInput2.picks).filter
        (fun pid => positionsOf planInput2.picks planInput2.elements pid !=
          some posGK)) = w :: rest ∧
      (planCurrent planInput2).1 = (currentStart0 planInput2.picks).erase d ++ [w] ∧
      (planCurrent planInput2).2 = (currentBench0 planInput2.picks).erase w ++ [d] ∧
      (planCurrent planInput2).1.countP
        (fun pid => positionsOf planInput2.picks planInput2.elements pid ==
          some posGK) = 1 ∧
      planEpGet planInput2 d ≤ planEpGet planInput2 k ∧
      d ∈ (planCurrent planInput2).2 ∧
      (∀ x ∈ (currentBench0 planInput2.picks).filter
          (fun pid => positionsOf planInput2.picks planInput2.elements pid !=
            some posGK),
        planEpGet planInput2 x ≤ planEpGet planInput2 w)) :=
  ⟨⟨by decide, by decide, by decide, by decide⟩,
   C7_two_gk_repair planInput2 (by decide) (by decide) (by decide) (by decide)⟩

theorem foldl_pymax {α : Type} (f : α → ℚ) :
    ∀ (xs : List α) (acc : α),
      (xs.foldl (fun acc y => if f acc < f y then y else acc) acc = acc ∨
        xs.foldl (fun acc y => if f acc < f y then y else acc) acc ∈ xs) ∧
      f acc ≤ f (xs.foldl (fun acc y => if f acc < f y then y else acc) acc) ∧
      ∀ y ∈ xs, f y ≤ f (xs.foldl (fun acc y => if f acc < f y then y else acc) acc) := by
  intro xs
  induction xs with
  | nil =>
    intro acc
    refine ⟨Or.inl rfl, le_refl _, ?_⟩
    intro y hy
    exact absurd hy (List.not_mem_nil _)
  | cons z zs ih =>
    intro acc
    rw [List.foldl_cons]
    obtain ⟨ihm, ihle, ihall⟩ := ih (if f acc < f z then z else acc)
    have hfa : f acc ≤ f (if f acc < f z then z else acc) := by
      split
    

 
      · next h => exact le_of_lt h
      · exact le_refl _
    have hfz : f z ≤ f (if f acc < f z then z else acc) := by
      split
      · exact le_refl _
      · next h => exact le_of_not_lt h
    refine ⟨?_, le_trans hfa ihle, ?_⟩
    · rcases ihm with h | h
      · rw [h]
        split
        · exact Or.inr (List.mem_cons_self _ _)
        · exact Or.inl rfl
      · exact Or.inr (List.mem_cons_of_mem _ h)
    · intro y hy
      rcases List.mem_cons.mp hy with h | h
      · rw [h]
        exact le_trans hfz ihle
      · exact ihall y h

theorem pyMaxBy_spec {α : Type} [Inhabited α] (f : α → ℚ) (x : α) (xs : List α) :
    pyMaxBy f (x :: xs) ∈ x :: xs ∧
      ∀ y ∈ x :: xs, f y ≤ f (pyMaxBy f (x :: xs)) := by
  obtain ⟨hm, hle, hall⟩ := foldl_pymax f xs x
  refine ⟨?_, ?_⟩
  · rcases hm with h | h
    · rw [show pyMaxBy f (x :: xs) =
        xs.foldl (fun acc y => if f acc < f y then y else acc) x from rfl, h]
      exact List.mem_cons_self _ _
    · exact List.mem_cons_of_mem _ h
  · intro y hy
    rcases List.mem_cons.mp hy with h | h
    · rw [h]
      exact hle
    · exact hall y h

theorem find_ne_spec (c : ℤ) :
    ∀ (l : List (ℤ × ℚ × ℚ)) (v : ℤ × ℚ × ℚ),
      l.Pairwise (fun a b => b.2.1 ≤ a.2.1) →
      l.find? (fun t => t.1 != c) = some v →
      v ∈ l ∧ v.1 ≠ c ∧ ∀ t ∈ l, t.1 ≠ c → t.2.1 ≤ v.2.1 := by
  intro l
  induction l with
  | nil =>
    intro v _ hf
    simp at hf
  | cons a l ih =>
    intro v hp hf
    by_cases ha : (a.1 != c) = true
    · rw [List.find?_cons, ha] at hf
      injection hf with hv
      subst hv
      refine ⟨List.mem_cons_self _ _, by simpa using ha, ?_⟩
      intro t ht _
      rcases List.mem_cons.mp ht with h | h
      · rw [h]
      · exact (List.pairwise_cons.mp hp).1 t h
    · have haf : (a.1 != c) = false := by simpa using ha
      rw [List.find?_cons, haf] at hf
      have hac : a.1 = c := by simpa using ha
      obtain ⟨hm, hne, hall⟩ := ih v (List.pairwise_cons.mp hp).2 hf
      refine ⟨List.mem_cons_of_mem _ hm, hne, ?_⟩
      intro t ht htc
      rcases List.mem_cons.mp ht with h | h
      · rw [h] at htc
        exact absurd hac htc
      · exact hall t h htc

/-- Claim C9: `recommend_captain_from_ids` considers only non-goalkeeper
starters; with no candidates it returns `(0, 0)`; otherwise the captain is
the top of the score-sorted candidates (maximal ownership-adjusted score),
overridden to the maximal raw-EPD candidate when the top scorer's raw EPD is
below 0.8; the vice is the first (hence highest-scoring) other candidate in
sorted order. -/
theorem C9_recommend_captain (starting_ids : List ℤ)
    (per_player_ep ownership_idx : ℤ → ℚ) (positions : ℤ → Option String)
    (mode : String) :
    (capCandidates starting_ids positions = [] →
      recommend_captain_from_ids starting_ids per_player_ep ownership_idx
        positions mode = (0, 0)) ∧
    (∀ top rest, capSorted starting_ids per_player_ep ownership_idx positions
        mode = top :: rest →
      (∃ t ∈ capScoredList starting_ids per_player_ep ownership_idx positions
          mode,
        t.1 = (recommend_captain_from_ids starting_ids per_player_ep
          ownership_idx positions mode).1 ∧
        positions t.1 ≠ some posGK) ∧
      (¬ top.2.2 < 0.8 →
        (recommend_captain_from_ids starting_ids per_player_ep ownership_idx
          positions mode).1 = top.1 ∧
        ∀ t ∈ capScoredList starting_ids per_player_ep ownership_idx positions
          mode, t.2.1 ≤ top.2.1) ∧
      (top.2.2 < 0.8 →
        (recommend_captain_from_ids starting_ids per_player_ep ownership_idx
          positions mode).1 = (pyMaxBy (fun t => t.2.2) (top :: rest)).1 ∧
        ∀ t ∈ capScoredList starting_ids per_player_ep ownership_idx positions
          mode, t.2.2 ≤ (pyMaxBy (fun t => t.2.2) (top :: rest)).2.2) ∧
      (∀ v, (top :: rest).find? (fun t => t.1 !=
          (recommend_captain_from_ids starting_ids per_player_ep ownership_idx
            positions mode).1) = some v →
        (recommend_captain_from_ids starting_ids per_player_ep ownership_idx
          positions mode).2 = v.1 ∧
        v.1 ≠ (recommend_captain_from_ids starting_ids per_player_ep
          ownership_idx positions mode).1 ∧
        positions v.1 ≠ some posGK ∧
        ∀ t ∈ capScoredList starting_ids per_player_ep ownership_idx positions
          mode, t.1 ≠ (recommend_captain_from_ids starting_ids per_player_ep
            ownership_idx positions mode).1 → t.2.1 ≤ v.2.1) ∧
      ((top :: rest).find? (fun t => t.1 !=
          (recommend_captain_from_ids starting_ids per_player_ep ownership_idx
            positions mode).1) = none →
        (recommend_captain_from_ids starting_ids per_player_ep ownership_idx
          positions mode).2 = 0)) := by
  have hscored_pid : ∀ t ∈ capScoredList starting_ids per_player_ep
      ownership_idx positions mode,
      t.1 ∈ capCandidates starting_ids positions ∧
        positions t.1 ≠ some posGK := by
    intro t ht
    unfold capScoredList at ht
    rcases List.mem_map.mp ht with ⟨pid, hpid, he⟩
    have h1 : t.1 = pid := by
      rw [← he]
    rw [h1]
    refine ⟨hpid, ?_⟩
    unfold capCandidates at hpid
    have h := (List.mem_filter.mp hpid).2
    simpa using h
  constructor
  · intro h
    unfold recommend_captain_from_ids capSorted capScoredList
    rw [h]
    rfl
  · intro top rest hss
    have hres : recommend_captain_from_ids starting_ids per_player_ep
        ownership_idx positions mode =
        (if top.2.2 < 0.8 then (pyMaxBy (fun t => t.2.2) (top :: rest)).1
         else top.1,
         ((((top :: rest).find? (fun t => t.1 !=
             (if top.2.2 < 0.8 then (pyMaxBy (fun t => t.2.2) (top :: rest)).1
              else top.1))).map (·.1)).getD 0)) := by
      unfold recommend_captain_from_ids
      rw [hss]
    have hmem_ss : ∀ t : ℤ × ℚ × ℚ, t ∈ top :: rest ↔
        t ∈ capScoredList starting_ids per_player_ep ownership_idx positions
          mode := by
      intro t
      rw [← hss]
      exact mem_sortByKeyDesc _ _ _
    have hsorted : (top :: rest).Pairwise (fun a b => b.2.1 ≤ a.2.1) := by
      rw [← hss]
      exact sortByKeyDesc_sorted _ _
    refine ⟨?_, ?_, ?_, ?_, ?_⟩
    · by_cases hb : top.2.2 < 0.8
      · obtain ⟨hm, _⟩ := pyMaxBy_spec (fun t => t.2.2) top rest
        refine ⟨pyMaxBy (fun t => t.2.2) (top :: rest), (hmem_ss _).mp hm,
          ?_, (hscored_pid _ ((hmem_ss _).mp hm)).2⟩
        rw [hres]
        dsimp only
        rw [if_pos hb]
      · refine ⟨top, (hmem_ss _).mp (List.mem_cons_self _ _), ?_,
          (hscored_pid _ ((hmem_ss _).mp (List.mem_cons_self _ _))).2⟩
        rw [hres]
        dsimp only
        rw [if_neg hb]
    · intro hb
      constructor
      · rw [hres]
        dsimp only
        rw [if_neg hb]
      · intro t ht
        rcases List.mem_cons.mp ((hmem_ss t).mpr ht) with h | h
        · rw [h]
        · exact (List.pairwise_cons.mp hsorted).1 t h
    · intro hb
      obtain ⟨_, hmax⟩ := pyMaxBy_spec (fun t => t.2.2) top rest
      constructor
      · rw [hres]
        dsimp only
        rw [if_pos hb]
      · intro t ht
        exact hmax t ((hmem_ss t).mpr ht)
    · intro v hfv
      obtain ⟨hm, hne, hall⟩ := find_ne_spec
        (recommend_captain_from_ids starting_ids per_player_ep ownership_idx
          positions mode).1 (top :: rest) v hsorted hfv
      refine ⟨?_, hne, (hscored_pid v ((hmem_ss v).mp hm)).2, ?_⟩
      · rw [hres] at hfv ⊢
        dsimp only at hfv ⊢
        rw [hfv]
        rfl
      · intro t ht htne
        exact hall t ((hmem_ss t).mpr ht) htne
    · intro hfn
      rw [hres] at hfn ⊢
      dsimp only at hfn ⊢
      rw [hfn]
      rfl

/-- Concrete captaincy inputs for evaluating `recommend_captain_from_ids`:
two non-goalkeeper starters with raw EPD 3 and 1, no ownership. -/
def capWids : List ℤ := [1, 2]

/-- The concrete EPD map of the captaincy example. -/
def capWep : ℤ → ℚ := fun pid => if pid = 1 then 3 else 1

/-- The concrete ownership map of the captaincy example. -/
def capWown : ℤ → ℚ := fun _ => 0

/-- The concrete position map of the captaincy example. -/
def capWpos : ℤ → Option String := fun _ => some posMID

/-- The "safe" captain mode string. -/
def modeSafe : String := "safe"

/-- Witness for C9: at the concrete two-candidate input the sorted candidate
list is evaluated, the top raw EPD is not below 0.8, and the theorem yields
captain 1 with the maximal adjusted score. -/
theorem C9_recommend_captain_witness :
    capSorted capWids capWep capWown capWpos modeSafe =
      [((1 : ℤ), (3 : ℚ), (3 : ℚ)), ((2 : ℤ), (1 : ℚ), (1 : ℚ))] ∧
    (recommend_captain_from_ids capWids capWep capWown capWpos modeSafe).1 =
      (1 : ℤ) ∧
    ∀ t ∈ capScoredList capWids capWep capWown capWpos modeSafe,
      t.2.1 ≤ (3 : ℚ) :=
  have hss : capSorted capWids capWep capWown capWpos modeSafe =
      [((1 : ℤ), (3 : ℚ), (3 : ℚ)), ((2 : ℤ), (1 : ℚ), (1 : ℚ))] :=
    of_decide_eq_true (by with_unfolding_all rfl)
  have h := ((C9_recommend_captain capWids capWep capWown capWpos modeSafe).2
    ((1 : ℤ), (3 : ℚ), (3 : ℚ)) [((2 : ℤ), (1 : ℚ), (1 : ℚ))] hss).2.1
    (of_decide_eq_false (by with_unfolding_all rfl))
  ⟨hss, h.1, h.2⟩
